import Mathlib

/-!
Verification of the catalog-driven schema-forging and pagination engine
(graphql/forge: ConnectionForge, CollectionForge) against its specification.

Strings from the JavaScript side are modelled as lists of Unicode code
points (`Cps := List Nat`), so that the cursor codec (JSON text, UTF-8
bytes, base64 token) can be stated byte-for-byte.  Fallible resolver code
(JS `throw`) is modelled with `Except`; the external `Paginator.readPage`
collaborator is an explicit function argument, so "readPage is never
invoked" is expressed by quantifying a theorem over that argument.
-/

namespace PostGraphQL

/-- JavaScript strings, modelled as sequences of Unicode code points. -/
abbrev Cps := List Nat

/-- A paginator ordering as consumed by `ConnectionForge` (only its `name`
is read by the forge: `ordering.name`). -/
structure PgOrdering where
  name : Cps
deriving DecidableEq

/-- `NamespacedCursor` from ConnectionForge.ts: paginator name, ordering
name or null (`none`), and the opaque cursor payload. -/
structure NamespacedCursor (C : Type) where
  paginatorName : Cps
  orderingName : Option Cps
  cursor : C
deriving DecidableEq

/-- A `Condition` from the catalog: the literal `true` (match everything)
or an opaque predicate value. -/
inductive Condition (P : Type)
  | trueCond
  | ofPred (p : P)
deriving DecidableEq

/-- The argument object passed to `Paginator.readPage` by the connection
resolver (ConnectionForge.ts lines 124-131). -/
structure ReadPageArgs (C P : Type) where
  beforeCursor : Option C
  afterCursor : Option C
  first : Option Int
  last : Option Int
  ordering : Option PgOrdering
  condition : Condition P
deriving DecidableEq

/-- One `(cursor, value)` entry of `page.values`. -/
structure PageEntry (V C : Type) where
  cursor : C
  value : V
deriving DecidableEq

/-- A `Paginator.Page`: the fetched entries plus `hasNext`/`hasPrevious`. -/
structure Page (V C : Type) where
  values : List (PageEntry V C)
  hasNext : Bool
  hasPrevious : Bool
deriving DecidableEq

/-- The slice of a catalog `Paginator` read by the connection resolver:
its name (`paginator.getName()`).  `readPage` itself is an external
collaborator and is passed separately as a function. -/
structure Paginator where
  name : Cps
deriving DecidableEq

/-- The connection value built by the resolver (ConnectionForge.ts lines
133-140): `{paginator, ordering, condition, page}`. -/
structure Connection (V C P : Type) where
  paginator : Paginator
  ordering : Option PgOrdering
  condition : Condition P
  page : Page V C
deriving DecidableEq

/-- The edge value (`Edge` interface in ConnectionForge.ts): paginator,
ordering, cursor and value. -/
structure Edge (V C : Type) where
  paginator : Paginator
  ordering : Option PgOrdering
  cursor : C
  value : V
deriving DecidableEq

/-- The four `throw new Error(...)` sites of the connection resolver
(ConnectionForge.ts lines 102-114), one constructor per distinct message. -/
inductive ResolveError
  | beforePaginatorMismatch
  | afterPaginatorMismatch
  | beforeOrderingMismatch
  | afterOrderingMismatch
deriving DecidableEq

/-- Which errors are the "cursor can not be used with this connection"
(paginator-mismatch) errors. -/
def ResolveError.isPaginatorMismatch : ResolveError → Bool
  | .beforePaginatorMismatch => true
  | .afterPaginatorMismatch => true
  | _ => false

/-- Which errors are the "cursor can not be used for this orderBy value"
(ordering-mismatch) errors. -/
def ResolveError.isOrderingMismatch : ResolveError → Bool
  | .beforeOrderingMismatch => true
  | .afterOrderingMismatch => true
  | _ => false

/-- The resolved `ConnectionArgs` of the connection field: `orderBy`
(after the executor applied the default), decoded `before`/`after`
cursors, `first`/`last`, and the raw `condition` input. -/
structure ConnectionArgs (C I : Type) where
  orderBy : Option PgOrdering
  before : Option (NamespacedCursor C)
  after : Option (NamespacedCursor C)
  first : Option Int
  last : Option Int
  condition : Option I
deriving DecidableEq

/-- The `resolve` closure of `ConnectionForge.createField`
(ConnectionForge.ts lines 90-141), with the external `readPage`
collaborator passed in as a function.  The four validation checks run in
source order; only after all of them does the resolver call `readPage`
and wrap the page as a `Connection` value. -/
def connectionResolve {V C P I : Type}
    (paginator : Paginator)
    (conditionConfig : Option (I → Condition P))
    (readPage : ReadPageArgs C P → Page V C)
    (args : ConnectionArgs C I) :
    Except ResolveError (Connection V C P) :=
  let ordering := args.orderBy
  let beforeCursor := args.before
  let afterCursor := args.after
  if (beforeCursor.map (fun bc => decide (bc.paginatorName ≠ paginator.name))).getD false then
    .error .beforePaginatorMismatch
  else if (afterCursor.map (fun ac => decide (ac.paginatorName ≠ paginator.name))).getD false then
    .error .afterPaginatorMismatch
  else if (beforeCursor.map
      (fun bc => decide (bc.orderingName ≠ ordering.map (fun o => o.name)))).getD false then
    .error .beforeOrderingMismatch
  else if (afterCursor.map
      (fun ac => decide (ac.orderingName ≠ ordering.map (fun o => o.name)))).getD false then
    .error .afterOrderingMismatch
  else
    let condition : Condition P :=
      match conditionConfig, args.condition with
      | some getCondition, some argCondition => getCondition argCondition
      | _, _ => .trueCond
    let page := readPage
      { beforeCursor := beforeCursor.map (fun bc => bc.cursor)
        afterCursor := afterCursor.map (fun ac => ac.cursor)
        first := args.first
        last := args.last
        ordering := ordering
        condition := condition }
    .ok { paginator := paginator, ordering := ordering, condition := condition, page := page }

/-- The `edges` field resolver of the connection type (ConnectionForge.ts
lines 170-174): one edge per `(cursor, value)` pair of the page. -/
def edgesResolve {V C P : Type} (conn : Connection V C P) : List (Edge V C) :=
  conn.page.values.map (fun e =>
    { paginator := conn.paginator, ordering := conn.ordering, cursor := e.cursor, value := e.value })

/-- The `nodes` field resolver (ConnectionForge.ts lines 176-181). -/
def nodesResolve {V C P : Type} (conn : Connection V C P) : List V :=
  conn.page.values.map (fun e => e.value)

/-- The `cursor` field resolver of the edge type (ConnectionForge.ts
lines 201-208).  `paginatorName` is the name captured from the paginator
the edge type was created for. -/
def edgeCursorResolve {V C : Type} (paginatorName : Cps) (edge : Edge V C) :
    NamespacedCursor C :=
  { paginatorName := paginatorName
    orderingName := edge.ordering.map (fun o => o.name)
    cursor := edge.cursor }

/-- A thrown JavaScript runtime error: reading a property of `undefined`. -/
inductive JsError
  | typeError
deriving DecidableEq

/-- The `startCursor` resolver of `PageInfo` (ConnectionForge.ts lines
291-297): it reads `page.values[0].cursor` with no emptiness check, so on
an empty page the indexing yields `undefined` and the `.cursor` access
throws a TypeError. -/
def startCursorResolve {V C P : Type} (conn : Connection V C P) :
    Except JsError (NamespacedCursor C) :=
  match conn.page.values with
  | [] => .error .typeError
  | e :: _ =>
    .ok { paginatorName := conn.paginator.name
          orderingName := conn.ordering.map (fun o => o.name)
          cursor := e.cursor }

/-- The `endCursor` resolver of `PageInfo` (ConnectionForge.ts lines
300-306): it reads `page.values[page.values.length - 1].cursor`, which on
an empty page also dereferences `undefined` and throws. -/
def endCursorResolve {V C P : Type} (conn : Connection V C P) :
    Except JsError (NamespacedCursor C) :=
  match conn.page.values.getLast? with
  | none => .error .typeError
  | some e =>
    .ok { paginatorName := conn.paginator.name
          orderingName := conn.ordering.map (fun o => o.name)
          cursor := e.cursor }

/-! ## Build-time type construction (ConnectionForge.createField) -/

/-- A constructed `GraphQLObjectType` descriptor.  `id` is the allocation
identity: each `new GraphQLObjectType(...)` expression yields a fresh id,
so reference equality of descriptors is equality of ids. -/
structure GqlObjectType where
  id : Nat
  name : Cps
  interfaces : List Nat
deriving DecidableEq

/-- Allocation state for type construction: the next fresh identity. -/
structure BuildState where
  nextId : Nat
deriving DecidableEq

/-- One `new GraphQLObjectType(...)` allocation. -/
def allocType (name : Cps) (interfaces : List Nat) (st : BuildState) :
    GqlObjectType × BuildState :=
  ({ id := st.nextId, name := name, interfaces := interfaces }, { nextId := st.nextId + 1 })

/-- The name of the edge type for a paginator type name
(`formatName.type(n + "-edge")`; the formatter only affects spelling, so
it is modelled as the plain suffixed name: 45 is the hyphen). -/
def edgeTypeName (n : Cps) : Cps := n ++ [45, 101, 100, 103, 101]

/-- The name of the connection type for a paginator type name
(`formatName.type(n + "-connection")`). -/
def connectionTypeName (n : Cps) : Cps :=
  n ++ [45, 99, 111, 110, 110, 101, 99, 116, 105, 111, 110]

/-- `ConnectionForge._createEdgeType` (lines 189-217): allocates a fresh
edge object type implementing the Edge interface. -/
def createEdgeType (edgeInterfaceId : Nat) (gqlPaginatorTypeName : Cps)
    (st : BuildState) : GqlObjectType × BuildState :=
  allocType (edgeTypeName gqlPaginatorTypeName) [edgeInterfaceId] st

/-- `ConnectionForge._createConnectionType` (lines 148-184): allocates the
edge type, then a fresh connection object type implementing the Connection
interface.  There is no memo table in the source: every call allocates. -/
def createConnectionType (connectionInterfaceId edgeInterfaceId : Nat)
    (gqlPaginatorTypeName : Cps) (st : BuildState) :
    (GqlObjectType × GqlObjectType) × BuildState :=
  let (edge, st1) := createEdgeType edgeInterfaceId gqlPaginatorTypeName st
  let (conn, st2) := allocType (connectionTypeName gqlPaginatorTypeName)
    [connectionInterfaceId] st1
  ((conn, edge), st2)

/-- The fatal schema-construction error thrown by `createField` (line 43)
when the paginator's forged object type does not implement Node. -/
inductive BuildError
  | mustImplementNodeInterface
deriving DecidableEq

/-- The build-time part of `ConnectionForge.createField` (lines 34-46):
the Node-interface check on the paginator's forged object type, followed
by construction of the connection and edge types.  Returns the connection
type (the field's type) together with the edge type it allocated.  The
`orderBy` enum construction (line 46) allocates an enum type, not an
object type, and is not represented; it does not affect the identity of
the connection/edge descriptors. -/
def createFieldBuild (nodeInterfaceId connectionInterfaceId edgeInterfaceId : Nat)
    (gqlPaginatorType : GqlObjectType) (st : BuildState) :
    Except BuildError ((GqlObjectType × GqlObjectType) × BuildState) :=
  if nodeInterfaceId ∉ gqlPaginatorType.interfaces then
    .error .mustImplementNodeInterface
  else
    .ok (createConnectionType connectionInterfaceId edgeInterfaceId
      gqlPaginatorType.name st)

/-! ## CollectionForge.getType over a catalog with relations -/

/-- A tail (many-to-one) relation as read by `getType`: its name and the
index of the head collection (`relation.getHeadCollectionKey().getCollection()`). -/
structure CfRelation where
  name : Cps
  headCollection : Nat
deriving DecidableEq

/-- The slice of a catalog `Collection` read by `getType`. -/
structure CollectionDesc where
  name : Cps
  hasPrimaryKey : Bool
  tailRelations : List CfRelation
deriving DecidableEq

/-- A catalog: collections indexed by position (collection identity). -/
structure Catalog where
  collections : List CollectionDesc
deriving DecidableEq

/-- The object type descriptor forged by `getType`, with its allocation
identity and the identities of the types of its relation-derived fields. -/
structure ForgedType where
  id : Nat
  name : Cps
  relFieldTypeIds : List Nat
deriving DecidableEq

/-- Lookup in the memoization cache, keyed by collection identity. -/
def cacheLookup (cid : Nat) : List (Nat × ForgedType) → Option ForgedType
  | [] => none
  | (k, t) :: rest => if k = cid then some t else cacheLookup cid rest

/-- State threaded through `getType`: the memo cache of the `@memoize`
decorator and the allocation counter for fresh type identities. -/
structure ForgeState where
  cache : List (Nat × ForgedType)
  nextId : Nat
deriving DecidableEq

/-- The smallest cyclic catalog: collection 0 (named `a`) has a tail
relation to collection 1 (named `b`), which has a tail relation back to
collection 0 — the "A references B which references A" configuration of
the specification. -/
def cyclicCatalog : Catalog :=
  { collections :=
      [ { name := [97], hasPrimaryKey := true, tailRelations := [{ name := [114], headCollection := 1 }] }
      , { name := [98], hasPrimaryKey := true, tailRelations := [{ name := [115], headCollection := 0 }] } ] }

mutual
/-- `CollectionForge.getType` (CollectionForge.ts lines 129-185), fueled:
`none` means the call did not complete within `fuel` nested recursive
calls, so `(∀ fuel, ... = none)` states that the recursion never returns.
Modelled from the spec: the `@memoize` decorator (graphql/utils/memoize,
not under src/) keeps a per-collection-identity cache that is consulted on
entry and written when the decorated method returns.  Everything else is
from the source: the `fields:` value passed to `new GraphQLObjectType` is
a plain object, computed eagerly, and for every tail relation it contains
a field whose type is the recursive call `this.getType(headCollection)`
(lines 167-181) — so the recursive call runs before the memo entry for
the current collection can be written. -/
def getTypeGo (cat : Catalog) : Nat → Nat → ForgeState → Option (ForgedType × ForgeState)
  | 0, _, _ => none
  | fuel + 1, cid, st =>
    match cacheLookup cid st.cache with
    | some t => some (t, st)
    | none =>
      match cat.collections.get? cid with
      | none => none
      | some col =>
        match getTypeRels cat fuel col.tailRelations st with
        | none => none
        | some (relTys, st1) =>
          let t : ForgedType := { id := st1.nextId, name := col.name, relFieldTypeIds := relTys }
          some (t, { cache := (cid, t) :: st1.cache, nextId := st1.nextId + 1 })
termination_by fuel _ _ => (fuel, 0)

/-- The eager construction of the relation-derived field list (lines
167-181): one recursive `getType` call per tail relation, in order. -/
def getTypeRels (cat : Catalog) : Nat → List CfRelation → ForgeState → Option (List Nat × ForgeState)
  | _, [], st => some ([], st)
  | fuel, r :: rs, st =>
    match getTypeGo cat fuel r.headCollection st with
    | none => none
    | some (t, st1) =>
      match getTypeRels cat fuel rs st1 with
      | none => none
      | some (ts, st2) => some (t.id :: ts, st2)
termination_by fuel rs _ => (fuel, rs.length + 1)
end

/-! ## CollectionForge.createRootFieldEntries resolvers -/

/-- The `{collectionName, keyValue}` pair embedded in a global object id
(spec section 4.4). -/
structure GlobalId (K : Type) where
  name : Cps
  key : K
deriving DecidableEq

/-- The integrity error thrown by the primary-key root field resolver
(CollectionForge.ts line 67) on a collection-name mismatch. -/
inductive CollectionError
  | idCollectionMismatch
deriving DecidableEq

/-- The resolver of the primary-key root field (CollectionForge.ts lines
63-70).  `idDeserialize` stands for `id.deserialize` (graphql/utils/id,
not under src/); modelled from the spec (section 4.4) as the function
recovering the embedded `{collectionName, keyValue}` pair from the opaque
token.  `read` is the external `primaryKey.read`, with `none` meaning
"not found". -/
def rootByIdResolve {J K T : Type}
    (collectionName : Cps) (read : K → Option T)
    (idDeserialize : J → GlobalId K) (idArg : J) :
    Except CollectionError (Option T) :=
  let g := idDeserialize idArg
  if g.name ≠ collectionName then .error .idCollectionMismatch
  else .ok (read g.key)

/-- One component field of a composite key's object type. -/
structure CatObjectField where
  name : Cps
deriving DecidableEq

/-- The slice of a composite key's `ObjectType` used by the by-key root
field: its ordered component fields and `createFromFieldValues`.  `A` is
the GraphQL argument value type; an entry `none` models a JS `undefined`
slot in the array passed to `createFromFieldValues`. -/
structure CompositeKeyType (A K : Type) where
  fields : List CatObjectField
  createFromFieldValues : List (Option A) → K

/-- Upper-casing of an ASCII letter code point. -/
def toUpperCp (c : Nat) : Nat := if 97 ≤ c ∧ c ≤ 122 then c - 32 else c

/-- Worker for `argFormat`; the flag records whether the next letter must
be capitalized because a separator was just dropped. -/
def argFormatCp : Bool → Cps → Cps
  | _, [] => []
  | up, c :: rest =>
    if c = 95 ∨ c = 45 then argFormatCp true rest
    else (if up then toUpperCp c else c) :: argFormatCp false rest

/-- Modelled from the spec: `formatName.arg` (graphql/utils/formatName,
not under src/).  Per the spec's external-interface naming (root fields
`<Type>By<KeyName>`, and the repository fixtures exposing column
`a_thing_id` as argument `aThingId`), the argument formatter camel-cases
catalog names: separators (underscore 95, hyphen 45) are dropped and the
following letter upper-cased. -/
def argFormat (s : Cps) : Cps := argFormatCp false s

/-- The argument names declared by the composite by-key root field
(CollectionForge.ts lines 89-96): one argument per component field, keyed
by `formatName.arg(field.getName())`. -/
def byKeyArgNames {A K : Type} (keyType : CompositeKeyType A K) : List Cps :=
  keyType.fields.map (fun f => argFormat f.name)

/-- JS property lookup on the GraphQL argument object: the executor keys
the object by the declared argument names; a missing property is
`undefined` (`none`). -/
def lookupArg {A : Type} (nm : Cps) : List (Cps × A) → Option A
  | [] => none
  | (k, v) :: rest => if k = nm then some v else lookupArg nm rest

/-- The resolver of a composite by-key root field (CollectionForge.ts
lines 106-115): it rebuilds the key value with
`keyType.createFromFieldValues(fields.map(field => args[field.getName()]))`
— the lookup uses the raw catalog field name, although the arguments were
declared under the formatted names — and passes it to `key.read`. -/
def byKeyResolveComposite {A K T : Type}
    (keyType : CompositeKeyType A K) (read : K → Option T)
    (args : List (Cps × A)) : Option T :=
  let keyValue := keyType.createFromFieldValues
    (keyType.fields.map (fun f => lookupArg f.name args))
  read keyValue

/-! ## Cursor codec: JSON text, UTF-8 bytes, base64 token

`_serializeCursor` runs the triple through `JSON.stringify` and base64
encodes the UTF-8 bytes of the resulting text; `_deserializeCursor`
inverts each layer.  `JSON.stringify`/`JSON.parse` and `Buffer`'s UTF-8
and base64 conversions are platform primitives; they are embedded here
over the JSON-representable values a well-formed cursor triple consists
of (JSON numbers restricted to integers, the form every cursor payload in
this catalog — row ids and key values — takes). -/

mutual
/-- A JSON value.  Strings are code-point lists; numbers are integers. -/
inductive JVal
  | jnull
  | jbool (b : Bool)
  | jnum (n : Int)
  | jstr (s : Cps)
  | jarr (a : JArr)
  | jobj (o : JObj)

/-- The element list of a JSON array. -/
inductive JArr
  | anil
  | acons (hd : JVal) (tl : JArr)

/-- The key/value field list of a JSON object. -/
inductive JObj
  | onil
  | ocons (key : Cps) (val : JVal) (tl : JObj)
end

/-- The code point of a hexadecimal digit (lower case, as `JSON.stringify`
emits in `\u00XX` escapes). -/
def hexDigitCp (n : Nat) : Nat := if n < 10 then 48 + n else 87 + n

/-- `JSON.stringify`'s escaping of one code point inside a string
literal: quote (34) and backslash (92) get escaped, the control
characters 8, 9, 10, 12, 13 get their named escapes, other control
characters become `\u00XX`, and everything else is emitted literally. -/
def escapeCp (c : Nat) : Cps :=
  if c = 34 then [92, 34]
  else if c = 92 then [92, 92]
  else if c = 8 then [92, 98]
  else if c = 9 then [92, 116]
  else if c = 10 then [92, 110]
  else if c = 12 then [92, 102]
  else if c = 13 then [92, 114]
  else if c < 32 then [92, 117, 48, 48, hexDigitCp (c / 16), hexDigitCp (c % 16)]
  else [c]

/-- Escaping of a whole string body. -/
def escapeCps : Cps → Cps
  | [] => []
  | c :: rest => escapeCp c ++ escapeCps rest

/-- A JSON string literal: quote, escaped body, quote. -/
def quoteCps (s : Cps) : Cps := 34 :: (escapeCps s ++ [34])

/-- The decimal digit code points of a natural number, most significant
first. -/
def natDigitsCp (m : Nat) : Cps :=
  if m < 10 then [48 + m] else natDigitsCp (m / 10) ++ [48 + m % 10]
termination_by m
decreasing_by simp_wf; omega

/-- The JSON text of an integer (45 is the minus sign). -/
def intCp (n : Int) : Cps :=
  if n < 0 then 45 :: natDigitsCp (-n).toNat else natDigitsCp n.toNat

mutual
/-- `JSON.stringify` on a JSON value (91/93 are the square brackets,
123/125 the curly braces, 44 the comma, 58 the colon). -/
def stringifyV : JVal → Cps
  | .jnull => [110, 117, 108, 108]
  | .jbool true => [116, 114, 117, 101]
  | .jbool false => [102, 97, 108, 115, 101]
  | .jnum n => intCp n
  | .jstr s => quoteCps s
  | .jarr a => 91 :: (stringifyA a ++ [93])
  | .jobj o => 123 :: (stringifyO o ++ [125])

/-- Comma-separated element texts of an array. -/
def stringifyA : JArr → Cps
  | .anil => []
  | .acons v .anil => stringifyV v
  | .acons v (.acons w tl) => stringifyV v ++ 44 :: stringifyA (.acons w tl)

/-- Comma-separated `"key":value` field texts of an object. -/
def stringifyO : JObj → Cps
  | .onil => []
  | .ocons k v .onil => quoteCps k ++ 58 :: stringifyV v
  | .ocons k v (.ocons k2 v2 tl) =>
    quoteCps k ++ 58 :: stringifyV v ++ 44 :: stringifyO (.ocons k2 v2 tl)
end

/-- Is the code point a decimal digit? -/
def isDigitCp (c : Nat) : Bool := decide (48 ≤ c) && decide (c ≤ 57)

/-- Splits the longest leading run of digit code points off a text. -/
def takeDigits : Cps → Cps × Cps
  | [] => ([], [])
  | c :: rest =>
    if isDigitCp c then
      let p := takeDigits rest
      (c :: p.1, p.2)
    else ([], c :: rest)

/-- The value of a digit run, with accumulator. -/
def digitsVal : Cps → Nat → Nat
  | [], acc => acc
  | d :: rest, acc => digitsVal rest (acc * 10 + (d - 48))

/-- The numeric value of a digit run. -/
def digitsToNat (ds : Cps) : Nat := digitsVal ds 0

/-- The numeric value of a hexadecimal digit code point. -/
def hexVal (c : Nat) : Option Nat :=
  if 48 ≤ c ∧ c ≤ 57 then some (c - 48)
  else if 97 ≤ c ∧ c ≤ 102 then some (c - 87)
  else if 65 ≤ c ∧ c ≤ 70 then some (c - 55)
  else none

mutual
/-- Parses a JSON string body after the opening quote up to and including
the closing quote, resolving escapes; returns the decoded code points and
the remaining input. -/
def parseStrBody : Cps → Option (Cps × Cps)
  | [] => none
  | c :: rest =>
    if c = 34 then some ([], rest)
    else if c = 92 then parseStrEsc rest
    else (parseStrBody rest).map (fun p => (c :: p.1, p.2))
termination_by s => (s.length, 0)

/-- Parses what follows a backslash inside a JSON string literal. -/
def parseStrEsc : Cps → Option (Cps × Cps)
  | [] => none
  | e :: rest2 =>
    if e = 34 ∨ e = 92 ∨ e = 47 then (parseStrBody rest2).map (fun p => (e :: p.1, p.2))
    else if e = 98 then (parseStrBody rest2).map (fun p => (8 :: p.1, p.2))
    else if e = 116 then (parseStrBody rest2).map (fun p => (9 :: p.1, p.2))
    else if e = 110 then (parseStrBody rest2).map (fun p => (10 :: p.1, p.2))
    else if e = 102 then (parseStrBody rest2).map (fun p => (12 :: p.1, p.2))
    else if e = 114 then (parseStrBody rest2).map (fun p => (13 :: p.1, p.2))
    else if e = 117 then parseStrHex rest2
    else none
termination_by s => (s.length, 1)

/-- Parses the four hex digits of a `\\u` escape. -/
def parseStrHex : Cps → Option (Cps × Cps)
  | h1 :: h2 :: h3 :: h4 :: rest3 =>
    match hexVal h1, hexVal h2, hexVal h3, hexVal h4 with
    | some v1, some v2, some v3, some v4 =>
      (parseStrBody rest3).map
        (fun p => ((v1 * 4096 + v2 * 256 + v3 * 16 + v4) :: p.1, p.2))
    | _, _, _, _ => none
  | _ => none
termination_by s => (s.length, 0)
end

/-- Consumes an expected literal run of code points, returning the
remainder. -/
def expectCps : Cps → Cps → Option Cps
  | [], rest => some rest
  | e :: es, c :: rest => if c = e then expectCps es rest else none
  | _ :: _, [] => none

/-- Parses a non-negative JSON integer literal (a maximal digit run). -/
def parseNum (s : Cps) : Option (JVal × Cps) :=
  let p := takeDigits s
  if p.1 = [] then none else some (.jnum (digitsToNat p.1 : Int), p.2)

/-- Parses the digits of a negative JSON integer literal after the minus
sign. -/
def parseNeg (s : Cps) : Option (JVal × Cps) :=
  let p := takeDigits s
  if p.1 = [] then none else some (.jnum (-(digitsToNat p.1 : Int)), p.2)

mutual
/-- Recursive-descent `JSON.parse` of one value, fueled; returns the
value and the remaining input.  `none` is a parse error (or exhausted
fuel; the top-level entry point supplies enough fuel for any input). -/
def parseV : Nat → Cps → Option (JVal × Cps)
  | 0, _ => none
  | fuel + 1, s =>
    match s with
    | [] => none
    | c :: rest =>
      if c = 110 then (expectCps [117, 108, 108] rest).map (fun r => (.jnull, r))
      else if c = 116 then (expectCps [114, 117, 101] rest).map (fun r => (.jbool true, r))
      else if c = 102 then (expectCps [97, 108, 115, 101] rest).map (fun r => (.jbool false, r))
      else if c = 34 then (parseStrBody rest).map (fun p => (.jstr p.1, p.2))
      else if c = 45 then parseNeg rest
      else if isDigitCp c then parseNum (c :: rest)
      else if c = 91 then parseArrTail fuel rest
      else if c = 123 then parseObjTail fuel rest
      else none
termination_by fuel _ => (fuel, 0)

/-- Parses what follows the opening bracket of an array. -/
def parseArrTail (fuel : Nat) : Cps → Option (JVal × Cps)
  | [] => none
  | r0 :: rtl =>
    if r0 = 93 then some (.jarr .anil, rtl)
    else (parseItems fuel (r0 :: rtl)).map (fun p => (.jarr p.1, p.2))
termination_by _ => (fuel, 4)

/-- Parses the non-empty element list of an array together with the
closing bracket. -/
def parseItems : Nat → Cps → Option (JArr × Cps)
  | 0, _ => none
  | fuel + 1, s =>
    match parseV fuel s with
    | none => none
    | some (v, r) => parseItemsSep fuel v r
termination_by fuel _ => (fuel, 2)

/-- Parses the separator after an array element: a comma and more
elements, or the closing bracket. -/
def parseItemsSep (fuel : Nat) (v : JVal) : Cps → Option (JArr × Cps)
  | [] => none
  | r0 :: r2 =>
    if r0 = 44 then (parseItems fuel r2).map (fun p => (.acons v p.1, p.2))
    else if r0 = 93 then some (.acons v .anil, r2)
    else none
termination_by _ => (fuel, 3)

/-- Parses what follows the opening brace of an object. -/
def parseObjTail (fuel : Nat) : Cps → Option (JVal × Cps)
  | [] => none
  | r0 :: rtl =>
    if r0 = 125 then some (.jobj .onil, rtl)
    else (parseFields fuel (r0 :: rtl)).map (fun p => (.jobj p.1, p.2))
termination_by _ => (fuel, 7)

/-- Parses the non-empty field list of an object together with the
closing brace. -/
def parseFields : Nat → Cps → Option (JObj × Cps)
  | 0, _ => none
  | fuel + 1, s => parseFieldsKey fuel s
termination_by fuel _ => (fuel, 2)

/-- Parses one field's quoted key. -/
def parseFieldsKey (fuel : Nat) : Cps → Option (JObj × Cps)
  | [] => none
  | c :: r =>
    if c = 34 then
      match parseStrBody r with
      | none => none
      | some (k, r2) => parseFieldsColon fuel k r2
    else none
termination_by _ => (fuel, 6)

/-- Parses the colon and value of one object field. -/
def parseFieldsColon (fuel : Nat) (k : Cps) : Cps → Option (JObj × Cps)
  | [] => none
  | c :: r3 =>
    if c = 58 then
      match parseV fuel r3 with
      | none => none
      | some (v, r4) => parseFieldsSep fuel k v r4
    else none
termination_by _ => (fuel, 5)

/-- Parses the separator after an object field: a comma and more fields,
or the closing brace. -/
def parseFieldsSep (fuel : Nat) (k : Cps) (v : JVal) : Cps → Option (JObj × Cps)
  | [] => none
  | r0 :: r5 =>
    if r0 = 44 then (parseFields fuel r5).map (fun p => (.ocons k v p.1, p.2))
    else if r0 = 125 then some (.ocons k v .onil, r5)
    else none
termination_by _ => (fuel, 3)
end

/-- The JSON text of a value (`JSON.stringify`). -/
def jsonStringify (v : JVal) : Cps := stringifyV v

/-- `JSON.parse`: parses one value and requires the whole input to be
consumed. -/
def jsonParse (s : Cps) : Option JVal :=
  match parseV (s.length + 1) s with
  | some (v, []) => some v
  | _ => none

/-- UTF-8 encoding of one Unicode code point. -/
def utf8EncodeCp (c : Nat) : List Nat :=
  if c < 128 then [c]
  else if c < 2048 then [192 + c / 64, 128 + c % 64]
  else if c < 65536 then [224 + c / 4096, 128 + c / 64 % 64, 128 + c % 64]
  else [240 + c / 262144, 128 + c / 4096 % 64, 128 + c / 64 % 64, 128 + c % 64]

/-- UTF-8 encoding of a code point sequence (what `new Buffer(string)`
holds). -/
def utf8Encode : Cps → List Nat
  | [] => []
  | c :: rest => utf8EncodeCp c ++ utf8Encode rest

/-- Is the byte a UTF-8 continuation byte? -/
def isCont (b : Nat) : Bool := decide (128 ≤ b) && decide (b < 192)

mutual
/-- UTF-8 decoding of a byte sequence back to code points, dispatching on
the lead byte's range. -/
def utf8Decode : List Nat → Option Cps
  | [] => some []
  | b0 :: rest =>
    if b0 < 128 then (utf8Decode rest).map (fun cs => b0 :: cs)
    else if b0 < 192 then none
    else if b0 < 224 then utf8Tail2 b0 rest
    else if b0 < 240 then utf8Tail3 b0 rest
    else if b0 < 248 then utf8Tail4 b0 rest
    else none
termination_by bs => (bs.length, 1)

/-- Decoding after a two-byte lead byte: one continuation byte. -/
def utf8Tail2 (b0 : Nat) : List Nat → Option Cps
  | b1 :: rest1 =>
    if isCont b1 then
      (utf8Decode rest1).map (fun cs => ((b0 - 192) * 64 + (b1 - 128)) :: cs)
    else none
  | [] => none
termination_by bs => (bs.length, 0)

/-- Decoding after a three-byte lead byte: two continuation bytes. -/
def utf8Tail3 (b0 : Nat) : List Nat → Option Cps
  | b1 :: b2 :: rest1 =>
    if isCont b1 && isCont b2 then
      (utf8Decode rest1).map
        (fun cs => ((b0 - 224) * 4096 + (b1 - 128) * 64 + (b2 - 128)) :: cs)
    else none
  | _ => none
termination_by bs => (bs.length, 0)

/-- Decoding after a four-byte lead byte: three continuation bytes. -/
def utf8Tail4 (b0 : Nat) : List Nat → Option Cps
  | b1 :: b2 :: b3 :: rest1 =>
    if isCont b1 && isCont b2 && isCont b3 then
      (utf8Decode rest1).map (fun cs =>
        ((b0 - 240) * 262144 + (b1 - 128) * 4096 + (b2 - 128) * 64 + (b3 - 128)) :: cs)
    else none
  | _ => none
termination_by bs => (bs.length, 0)
end

/-- The code point of the base64 alphabet character for a sextet. -/
def b64Cp (n : Nat) : Nat :=
  if n < 26 then 65 + n
  else if n < 52 then 71 + n
  else if n < 62 then n - 4
  else if n = 62 then 43
  else 47

/-- The sextet of a base64 alphabet code point. -/
def b64Val (c : Nat) : Option Nat :=
  if 65 ≤ c ∧ c ≤ 90 then some (c - 65)
  else if 97 ≤ c ∧ c ≤ 122 then some (c - 71)
  else if 48 ≤ c ∧ c ≤ 57 then some (c + 4)
  else if c = 43 then some 62
  else if c = 47 then some 63
  else none

/-- Base64 encoding of a byte sequence with `=` (61) padding, as
`Buffer#toString(base64)` produces. -/
def base64Encode : List Nat → List Nat
  | [] => []
  | [b1] => [b64Cp (b1 / 4), b64Cp (b1 % 4 * 16), 61, 61]
  | [b1, b2] => [b64Cp (b1 / 4), b64Cp (b1 % 4 * 16 + b2 / 16), b64Cp (b2 % 16 * 4), 61]
  | b1 :: b2 :: b3 :: rest =>
    b64Cp (b1 / 4) :: b64Cp (b1 % 4 * 16 + b2 / 16) ::
      b64Cp (b2 % 16 * 4 + b3 / 64) :: b64Cp (b3 % 64) :: base64Encode rest

/-- Base64 decoding of a canonical token back to bytes. -/
def base64Decode : List Nat → Option (List Nat)
  | [] => some []
  | c1 :: c2 :: c3 :: c4 :: rest =>
    if rest = [] ∧ c3 = 61 ∧ c4 = 61 then
      match b64Val c1, b64Val c2 with
      | some s1, some s2 => if s2 % 16 = 0 then some [s1 * 4 + s2 / 16] else none
      | _, _ => none
    else if rest = [] ∧ c4 = 61 then
      match b64Val c1, b64Val c2, b64Val c3 with
      | some s1, some s2, some s3 =>
        if s3 % 4 = 0 then some [s1 * 4 + s2 / 16, s2 % 16 * 16 + s3 / 4] else none
      | _, _, _ => none
    else
      match b64Val c1, b64Val c2, b64Val c3, b64Val c4 with
      | some s1, some s2, some s3, some s4 =>
        (base64Decode rest).map (fun bs =>
          (s1 * 4 + s2 / 16) :: (s2 % 16 * 16 + s3 / 4) :: (s3 % 4 * 64 + s4) :: bs)
      | _, _, _, _ => none
  | _ => none

/-- The JSON value standing for `orderingName : string | null`. -/
def joptStr : Option Cps → JVal
  | some s => .jstr s
  | none => .jnull

/-- `ConnectionForge._serializeCursor` (ConnectionForge.ts lines 242-244):
base64 of the UTF-8 bytes of `JSON.stringify([paginatorName,
orderingName, cursor])`. -/
def serializeCursor (nc : NamespacedCursor JVal) : List Nat :=
  base64Encode (utf8Encode (jsonStringify
    (.jarr (.acons (.jstr nc.paginatorName)
      (.acons (joptStr nc.orderingName)
        (.acons nc.cursor .anil))))))

/-- `ConnectionForge._deserializeCursor` (ConnectionForge.ts lines
246-252): base64 decode, UTF-8 decode, `JSON.parse`, then destructuring
`[paginatorName, orderingName, cursor]`.  `none` models a thrown decoding
error or a token whose decoded triple does not have the
`NamespacedCursor` shape. -/
def deserializeCursor (tok : List Nat) : Option (NamespacedCursor JVal) :=
  match base64Decode tok with
  | none => none
  | some bytes =>
    match utf8Decode bytes with
    | none => none
    | some cps =>
      match jsonParse cps with
      | some (.jarr (.acons p (.acons o (.acons c _)))) =>
        match p, o with
        | .jstr pn, .jstr onm => some { paginatorName := pn, orderingName := some onm, cursor := c }
        | .jstr pn, .jnull => some { paginatorName := pn, orderingName := none, cursor := c }
        | _, _ => none
      | _ => none

/-- Is the code point a Unicode scalar value (encodable in UTF-8, i.e.
below 0x110000 and not a surrogate)?  JavaScript strings that reach
`Buffer` well-formed consist of such code points. -/
def validScalarCp (c : Nat) : Bool :=
  decide (c < 55296) || (decide (57343 < c) && decide (c < 1114112))

/-- All code points of a string are Unicode scalar values. -/
def validCps (s : Cps) : Bool := s.all validScalarCp

mutual
/-- Well-formedness of a JSON value: every string consists of Unicode
scalar values. -/
def wfV : JVal → Bool
  | .jnull => true
  | .jbool _ => true
  | .jnum _ => true
  | .jstr s => validCps s
  | .jarr a => wfA a
  | .jobj o => wfO o

/-- Well-formedness of an array's elements. -/
def wfA : JArr → Bool
  | .anil => true
  | .acons v tl => wfV v && wfA tl

/-- Well-formedness of an object's fields. -/
def wfO : JObj → Bool
  | .onil => true
  | .ocons k v tl => validCps k && wfV v && wfO tl
end

/-- A well-formed namespaced cursor triple: its names and payload strings
consist of Unicode scalar values. -/
def wfCursor (nc : NamespacedCursor JVal) : Bool :=
  validCps nc.paginatorName &&
    (match nc.orderingName with
     | some s => validCps s
     | none => true) &&
    wfV nc.cursor

mutual
/-- Fuel sufficient for `parseV` to parse this value's text. -/
def needV : JVal → Nat
  | .jarr .anil => 1
  | .jarr (.acons v tl) => needA (.acons v tl) + 1
  | .jobj .onil => 1
  | .jobj (.ocons k v tl) => needO (.ocons k v tl) + 1
  | _ => 1

/-- Fuel sufficient for `parseItems` to parse these elements. -/
def needA : JArr → Nat
  | .anil => 0
  | .acons v tl => max (needV v) (needA tl) + 1

/-- Fuel sufficient for `parseFields` to parse these fields. -/
def needO : JObj → Nat
  | .onil => 0
  | .ocons _ v tl => max (needV v) (needO tl) + 1
end

/-! # Theorems -/

/-- C2: resolving a connection field with a `before` or `after` cursor
whose embedded paginator name differs from the field's paginator name
raises the paginator-mismatch error; the result is the same for every
`readPage` collaborator, so `Paginator.readPage` is never invoked. -/
theorem connectionResolve_paginator_mismatch {V C P I : Type}
    (paginator : Paginator) (conditionConfig : Option (I → Condition P))
    (args : ConnectionArgs C I)
    (h : (∃ bc, args.before = some bc ∧ bc.paginatorName ≠ paginator.name) ∨
         (∃ ac, args.after = some ac ∧ ac.paginatorName ≠ paginator.name)) :
    ∀ readPage : ReadPageArgs C P → Page V C,
      ∃ e, connectionResolve paginator conditionConfig readPage args = Except.error e ∧
        e.isPaginatorMismatch = true := by
  intro readPage
  unfold connectionResolve
  rcases h with ⟨bc, hb, hne⟩ | ⟨ac, ha, hne⟩
  · rw [hb]
    simp [hne]
    rfl
  · rcases hB : args.before with _ | bc
    · rw [ha]
      simp [hne]
      rfl
    · by_cases hbc : bc.paginatorName = paginator.name
      · rw [ha]
        simp [hbc, hne]
        rfl
      · simp [hbc]
        rfl

/-- C2 witness: a concrete resolution whose `after` cursor names
paginator `b` while the field's paginator is `a`. -/
theorem connectionResolve_paginator_mismatch_witness :
    ∃ e, connectionResolve (V := Nat) (C := Nat) (P := Nat) (I := Nat)
        ⟨[97]⟩ none (fun _ => ⟨[], false, false⟩)
        ⟨none, none, some ⟨[98], none, 0⟩, none, none, none⟩ = Except.error e ∧
      e.isPaginatorMismatch = true :=
  connectionResolve_paginator_mismatch ⟨[97]⟩ none _
    (Or.inr ⟨⟨[98], none, 0⟩, rfl, by decide⟩) _

/-- C3 counterexample: a resolution whose `before` cursor carries both a
foreign paginator name and a foreign ordering name.  The claim requires
the ordering-mismatch error, but the paginator checks run first (lines
102-105 before 111-114), so the raised error is the paginator-mismatch
one, which is not an ordering-mismatch error. -/
theorem connectionResolve_ordering_mismatch_counterexample :
    connectionResolve (V := Nat) (C := Nat) (P := Nat) (I := Nat)
        ⟨[97]⟩ none (fun _ => ⟨[], false, false⟩)
        ⟨some ⟨[121]⟩, some ⟨[98], some [120], 0⟩, none, none, none, none⟩ =
      Except.error ResolveError.beforePaginatorMismatch ∧
    (some [120] : Option Cps) ≠
      (some (⟨[121]⟩ : PgOrdering)).map (fun o => o.name) ∧
    ResolveError.beforePaginatorMismatch.isOrderingMismatch = false :=
  ⟨rfl, by decide, rfl⟩

/-- C3 amended: when the decoded cursors' paginator names do match the
field's paginator, a `before`/`after` cursor whose ordering name differs
from the resolved `orderBy`'s name (with `none` for absence on both
sides) makes the resolver raise the ordering-mismatch error, for every
`readPage` collaborator — so `readPage` is never invoked. -/
theorem connectionResolve_ordering_mismatch {V C P I : Type}
    (paginator : Paginator) (conditionConfig : Option (I → Condition P))
    (args : ConnectionArgs C I)
    (hbp : ∀ bc, args.before = some bc → bc.paginatorName = paginator.name)
    (hap : ∀ ac, args.after = some ac → ac.paginatorName = paginator.name)
    (h : (∃ bc, args.before = some bc ∧
            bc.orderingName ≠ args.orderBy.map (fun o => o.name)) ∨
         (∃ ac, args.after = some ac ∧
            ac.orderingName ≠ args.orderBy.map (fun o => o.name))) :
    ∀ readPage : ReadPageArgs C P → Page V C,
      ∃ e, connectionResolve paginator conditionConfig readPage args = Except.error e ∧
        e.isOrderingMismatch = true := by
  intro readPage
  unfold connectionResolve
  rcases h with ⟨bc, hb, hne⟩ | ⟨ac, ha, hne⟩
  · rcases hA : args.after with _ | ac
    · rw [hb]
      simp [hbp bc hb, hne]
      rfl
    · rw [hb]
      simp [hbp bc hb, hap ac hA, hne]
      rfl
  · rcases hB : args.before with _ | bc
    · rw [ha]
      simp [hap ac ha, hne]
      rfl
    · by_cases hbo : bc.orderingName = args.orderBy.map (fun o => o.name)
      · rw [ha]
        simp [hbp bc hB, hap ac ha, hbo, hne]
        rfl
      · simp [ha, hbp bc hB, hap ac ha, hbo]
        rfl

/-- C3 amended witness: a concrete resolution with matching paginator
names, `orderBy` ordering `y`, and a `before` cursor minted under
ordering `x`. -/
theorem connectionResolve_ordering_mismatch_witness :
    ∃ e, connectionResolve (V := Nat) (C := Nat) (P := Nat) (I := Nat)
        ⟨[97]⟩ none (fun _ => ⟨[], false, false⟩)
        ⟨some ⟨[121]⟩, some ⟨[97], some [120], 0⟩, none, none, none, none⟩ =
      Except.error e ∧ e.isOrderingMismatch = true :=
  connectionResolve_ordering_mismatch ⟨[97]⟩ none _
    (fun bc hb => by injection hb with h; rw [← h])
    (fun ac ha => by cases ha)
    (Or.inl ⟨⟨[97], some [120], 0⟩, rfl, by decide⟩) _

/-- C6: on a connection whose page is empty, both the `startCursor` and
the `endCursor` resolver dereference `undefined` (`page.values[0]`,
respectively `page.values[length - 1]`) and throw a TypeError, instead of
resolving to the absent value the claim (and the nullable `Cursor` field
type at lines 292/301) calls for; on a non-empty page they do return the
first/last entry's namespaced cursor. -/
theorem pageInfo_cursor_empty_page_throws :
    startCursorResolve (V := Nat) (C := Nat) (P := Nat)
        ⟨⟨[97]⟩, some ⟨[120]⟩, .trueCond, ⟨[], false, false⟩⟩ = Except.error .typeError ∧
    endCursorResolve (V := Nat) (C := Nat) (P := Nat)
        ⟨⟨[97]⟩, some ⟨[120]⟩, .trueCond, ⟨[], false, false⟩⟩ = Except.error .typeError ∧
    startCursorResolve (V := Nat) (C := Nat) (P := Nat)
        ⟨⟨[97]⟩, some ⟨[120]⟩, .trueCond, ⟨[⟨5, 7⟩, ⟨6, 8⟩], false, false⟩⟩ =
      Except.ok ⟨[97], some [120], 5⟩ ∧
    endCursorResolve (V := Nat) (C := Nat) (P := Nat)
        ⟨⟨[97]⟩, some ⟨[120]⟩, .trueCond, ⟨[⟨5, 7⟩, ⟨6, 8⟩], false, false⟩⟩ =
      Except.ok ⟨[97], some [120], 6⟩ :=
  ⟨rfl, rfl, rfl, rfl⟩

/-- C7: the primary-key root field resolver deserializes the id argument;
on a collection-name mismatch it raises the integrity error, and on a
match it returns exactly `primaryKey.read(key)` — in particular a key
matching no record (`read` returning `none`) yields a null result, not an
error. -/
theorem rootByIdResolve_integrity {J K T : Type}
    (collectionName : Cps) (read : K → Option T)
    (idDeserialize : J → GlobalId K) (idArg : J) :
    ((idDeserialize idArg).name ≠ collectionName →
      rootByIdResolve collectionName read idDeserialize idArg =
        Except.error .idCollectionMismatch) ∧
    ((idDeserialize idArg).name = collectionName →
      rootByIdResolve collectionName read idDeserialize idArg =
        Except.ok (read (idDeserialize idArg).key)) := by
  constructor
  · intro hne
    simp [rootByIdResolve, hne]
  · intro heq
    simp [rootByIdResolve, heq]

/-- C7 witness: collection `a` with a one-record store; an id embedding
collection name `b` errors, an id embedding `a` with an unmatched key
resolves to the null result. -/
theorem rootByIdResolve_integrity_witness :
    (([98] : Cps) ≠ [97] →
      rootByIdResolve (J := GlobalId Nat) [97]
          (fun k => if k = 1 then some 10 else none) (fun g => g) ⟨[98], 1⟩ =
        Except.error .idCollectionMismatch) ∧
    (([98] : Cps) = [97] →
      rootByIdResolve (J := GlobalId Nat) [97]
          (fun k => if k = 1 then some 10 else none) (fun g => g) ⟨[98], 1⟩ =
        Except.ok ((fun k => if k = 1 then some (10 : Nat) else none) 1)) ∧
    rootByIdResolve (J := GlobalId Nat) [97]
        (fun k => if k = 1 then some (10 : Nat) else none) (fun g => g) ⟨[97], 2⟩ =
      Except.ok none :=
  ⟨(rootByIdResolve_integrity [97] _ (fun g => g) ⟨[98], 1⟩).1,
   (rootByIdResolve_integrity [97] _ (fun g => g) ⟨[98], 1⟩).2,
   ((rootByIdResolve_integrity [97] _ (fun g => g) ⟨[97], 2⟩).2 rfl).trans rfl⟩

/-- C8: the composite by-key root field declares its arguments under the
formatted names (`formatName.arg(field.getName())`, camel-casing
`a_id` to `aId`), but its resolver reads `args[field.getName()]` under
the raw catalog name — so for a field whose name formatting changes, the
resolver passes `undefined` to `createFromFieldValues` instead of the
provided argument value, and the reconstructed key differs from the
composite key built from the same flattened argument values. -/
theorem byKeyResolveComposite_drops_formatted_args :
    byKeyArgNames (A := Nat) (K := List (Option Nat))
        ⟨[⟨[97, 95, 105, 100]⟩, ⟨[98]⟩], fun vs => vs⟩ = [[97, 73, 100], [98]] ∧
    byKeyResolveComposite (T := List (Option Nat))
        ⟨[⟨[97, 95, 105, 100]⟩, ⟨[98]⟩], fun vs => vs⟩ some
        [([97, 73, 100], 1), ([98], 2)] = some [none, some 2] ∧
    ([none, some 2] : List (Option Nat)) ≠ [some 1, some 2] :=
  ⟨rfl, rfl, by decide⟩

/-- C9: `createField` raises the fatal schema-construction error whenever
the paginator's forged object type does not implement the Node interface,
before any type is constructed. -/
theorem createFieldBuild_requires_node_interface
    (nodeInterfaceId connectionInterfaceId edgeInterfaceId : Nat)
    (gqlPaginatorType : GqlObjectType) (st : BuildState)
    (h : nodeInterfaceId ∉ gqlPaginatorType.interfaces) :
    createFieldBuild nodeInterfaceId connectionInterfaceId edgeInterfaceId
        gqlPaginatorType st = Except.error .mustImplementNodeInterface := by
  simp [createFieldBuild, h]

/-- C9 witness: a type implementing only interface 7 is rejected when the
Node interface has identity 0. -/
theorem createFieldBuild_requires_node_interface_witness :
    (0 : Nat) ∉ [7] ∧
    createFieldBuild 0 1 2 ⟨5, [116], [7]⟩ ⟨10⟩ =
      Except.error .mustImplementNodeInterface :=
  ⟨by decide, createFieldBuild_requires_node_interface 0 1 2 ⟨5, [116], [7]⟩ ⟨10⟩ (by decide)⟩

/-- C5: there is no memo table over `(paginator, value type)`: two
`createField` calls for the same paginator reconstruct the connection and
edge types, returning descriptors with the same names and structure but
distinct identities — structurally-equal duplicates, not the identical
descriptor the claim requires. -/
theorem createFieldBuild_not_memoized :
    ∃ conn1 edge1 conn2 edge2 st1 st2,
      createFieldBuild 0 1 2 ⟨5, [116], [0]⟩ ⟨10⟩ = Except.ok ((conn1, edge1), st1) ∧
      createFieldBuild 0 1 2 ⟨5, [116], [0]⟩ st1 = Except.ok ((conn2, edge2), st2) ∧
      conn1.name = conn2.name ∧ edge1.name = edge2.name ∧
      conn1.interfaces = conn2.interfaces ∧ edge1.interfaces = edge2.interfaces ∧
      conn1.id ≠ conn2.id ∧ edge1.id ≠ edge2.id :=
  ⟨_, _, _, _, _, _, rfl, rfl, rfl, rfl, rfl, rfl, by decide, by decide⟩

/-- Helper for C4: over the two-collection cycle, as long as neither
collection is in the memo cache, `getType` of either collection does not
complete within any fuel: the eager relation-field construction re-enters
`getType` of the other collection before the cache entry for the current
one is written, so the cache never grows along the descent. -/
theorem getTypeGo_cyclic_none : ∀ fuel (st : ForgeState),
    cacheLookup 0 st.cache = none → cacheLookup 1 st.cache = none →
    getTypeGo cyclicCatalog fuel 0 st = none ∧
      getTypeGo cyclicCatalog fuel 1 st = none := by
  intro fuel
  induction fuel with
  | zero =>
    intro st h0 h1
    exact ⟨by simp [getTypeGo], by simp [getTypeGo]⟩
  | succ n ih =>
    intro st h0 h1
    refine ⟨?_, ?_⟩
    · have h2 := (ih st h0 h1).2
      rw [getTypeGo, h0]
      simp only [cyclicCatalog] at h2 ⊢
      simp [getTypeRels, h2]
    · have h2 := (ih st h0 h1).1
      rw [getTypeGo, h1]
      simp only [cyclicCatalog] at h2 ⊢
      simp [getTypeRels, h2]

/-- C4: the claim's termination fails on the code: relation-derived
fields are built eagerly (the `fields:` object is computed during the
recursive `getType` call, lines 143-183), so on the mutually referencing
two-collection catalog `getType` never completes, however much fuel the
recursion is given, starting from the empty memo cache. -/
theorem getType_cycle_never_terminates :
    ∀ fuel, getTypeGo cyclicCatalog fuel 0 ⟨[], 0⟩ = none :=
  fun fuel => (getTypeGo_cyclic_none fuel ⟨[], 0⟩ rfl rfl).1

/-- Helper: a successful resolution stores the field's paginator and the
resolved `orderBy` in the returned connection value. -/
theorem connectionResolve_ok_inv {V C P I : Type}
    {paginator : Paginator} {conditionConfig : Option (I → Condition P)}
    {readPage : ReadPageArgs C P → Page V C} {args : ConnectionArgs C I}
    {conn : Connection V C P}
    (h : connectionResolve paginator conditionConfig readPage args = Except.ok conn) :
    conn.paginator = paginator ∧ conn.ordering = args.orderBy := by
  simp only [connectionResolve] at h
  by_cases h1 : (Option.map (fun bc => decide (bc.paginatorName ≠ paginator.name))
      args.before).getD false = true
  · rw [if_pos h1] at h
    exact Except.noConfusion h
  rw [if_neg h1] at h
  by_cases h2 : (Option.map (fun ac => decide (ac.paginatorName ≠ paginator.name))
      args.after).getD false = true
  · rw [if_pos h2] at h
    exact Except.noConfusion h
  rw [if_neg h2] at h
  by_cases h3 : (Option.map (fun bc => decide (bc.orderingName ≠
      Option.map (fun o => o.name) args.orderBy)) args.before).getD false = true
  · rw [if_pos h3] at h
    exact Except.noConfusion h
  rw [if_neg h3] at h
  by_cases h4 : (Option.map (fun ac => decide (ac.orderingName ≠
      Option.map (fun o => o.name) args.orderBy)) args.after).getD false = true
  · rw [if_pos h4] at h
    exact Except.noConfusion h
  rw [if_neg h4] at h
  injection h with h2
  rw [← h2]
  exact ⟨rfl, rfl⟩

/-- Helper: a cursor carrying the field's paginator name and the name of
the requested `orderBy` passes all four validation checks when replayed
as both `before` and `after`: resolution succeeds for every `readPage`. -/
theorem connectionResolve_replay {V C P I : Type}
    (paginator : Paginator) (conditionConfig : Option (I → Condition P))
    (args : ConnectionArgs C I) (nc : NamespacedCursor C)
    (hp : nc.paginatorName = paginator.name)
    (ho : nc.orderingName = args.orderBy.map (fun o => o.name)) :
    ∀ readPage : ReadPageArgs C P → Page V C,
      ∃ conn2, connectionResolve paginator conditionConfig readPage
        { args with before := some nc, after := some nc } = Except.ok conn2 := by
  intro readPage
  unfold connectionResolve
  simp [hp, ho]

/-- C10: every namespaced cursor minted by a resolved connection — each
edge's `cursor` and pageInfo's `startCursor`/`endCursor` — carries
exactly the field's paginator name and the resolved ordering's name
(`none` when no ordering was resolved), so replaying any such cursor as
`before` and `after` against the same field with the same `orderBy`
passes the paginator- and ordering-mismatch checks and resolution
succeeds. -/
theorem minted_cursors_replay {V C P I : Type}
    (paginator : Paginator) (conditionConfig : Option (I → Condition P))
    (readPage : ReadPageArgs C P → Page V C) (args : ConnectionArgs C I)
    (conn : Connection V C P)
    (h : connectionResolve paginator conditionConfig readPage args = Except.ok conn) :
    (∀ e ∈ edgesResolve conn,
      (edgeCursorResolve paginator.name e).paginatorName = paginator.name ∧
      (edgeCursorResolve paginator.name e).orderingName =
        args.orderBy.map (fun o => o.name) ∧
      ∀ readPage2 : ReadPageArgs C P → Page V C,
        ∃ conn2, connectionResolve paginator conditionConfig readPage2
          { args with before := some (edgeCursorResolve paginator.name e),
                      after := some (edgeCursorResolve paginator.name e) } =
            Except.ok conn2) ∧
    (∀ nc, startCursorResolve conn = Except.ok nc →
      nc.paginatorName = paginator.name ∧
      nc.orderingName = args.orderBy.map (fun o => o.name) ∧
      ∀ readPage2 : ReadPageArgs C P → Page V C,
        ∃ conn2, connectionResolve paginator conditionConfig readPage2
          { args with before := some nc, after := some nc } = Except.ok conn2) ∧
    (∀ nc, endCursorResolve conn = Except.ok nc →
      nc.paginatorName = paginator.name ∧
      nc.orderingName = args.orderBy.map (fun o => o.name) ∧
      ∀ readPage2 : ReadPageArgs C P → Page V C,
        ∃ conn2, connectionResolve paginator conditionConfig readPage2
          { args with before := some nc, after := some nc } = Except.ok conn2) := by
  obtain ⟨hpag, hord⟩ := connectionResolve_ok_inv h
  refine ⟨?_, ?_, ?_⟩
  · intro e he
    obtain ⟨pe, _, hpe⟩ := List.mem_map.mp he
    have heo : e.ordering = args.orderBy := by rw [← hpe, ← hord]
    refine ⟨rfl, by simp [edgeCursorResolve, heo], ?_⟩
    exact connectionResolve_replay paginator conditionConfig args _
      rfl (by simp [edgeCursorResolve, heo])
  · intro nc hnc
    unfold startCursorResolve at hnc
    split at hnc
    · exact Except.noConfusion hnc
    · injection hnc with h2
      rw [← h2]
      refine ⟨by rw [hpag], by rw [hord], ?_⟩
      exact connectionResolve_replay paginator conditionConfig args _
        (by rw [hpag]) (by rw [hord])
  · intro nc hnc
    unfold endCursorResolve at hnc
    split at hnc
    · exact Except.noConfusion hnc
    · injection hnc with h2
      rw [← h2]
      refine ⟨by rw [hpag], by rw [hord], ?_⟩
      exact connectionResolve_replay paginator conditionConfig args _
        (by rw [hpag]) (by rw [hord])

/-- C10 witness: a concrete resolution of paginator `a` under ordering
`x` whose page holds one entry; the theorem applies with the resolution
hypothesis discharged by computation. -/
theorem minted_cursors_replay_witness :
    (∀ e ∈ edgesResolve (V := Nat) (C := Nat) (P := Nat)
        ⟨⟨[97]⟩, some ⟨[120]⟩, .trueCond, ⟨[⟨5, 7⟩], true, false⟩⟩,
      (edgeCursorResolve (Paginator.mk [97]).name e).paginatorName =
        (Paginator.mk [97]).name ∧
      (edgeCursorResolve (Paginator.mk [97]).name e).orderingName =
        (ConnectionArgs.mk (C := Nat) (I := Nat)
          (some ⟨[120]⟩) none none none none none).orderBy.map (fun o => o.name) ∧
      ∀ readPage2 : ReadPageArgs Nat Nat → Page Nat Nat,
        ∃ conn2, connectionResolve (Paginator.mk [97]) none readPage2
          { ConnectionArgs.mk (C := Nat) (I := Nat)
              (some ⟨[120]⟩) none none none none none with
            before := some (edgeCursorResolve (Paginator.mk [97]).name e),
            after := some (edgeCursorResolve (Paginator.mk [97]).name e) } =
            Except.ok conn2) ∧
    (∀ nc, startCursorResolve (V := Nat) (C := Nat) (P := Nat)
        ⟨⟨[97]⟩, some ⟨[120]⟩, .trueCond, ⟨[⟨5, 7⟩], true, false⟩⟩ = Except.ok nc →
      nc.paginatorName = (Paginator.mk [97]).name ∧
      nc.orderingName = (ConnectionArgs.mk (C := Nat) (I := Nat)
        (some ⟨[120]⟩) none none none none none).orderBy.map (fun o => o.name) ∧
      ∀ readPage2 : ReadPageArgs Nat Nat → Page Nat Nat,
        ∃ conn2, connectionResolve (Paginator.mk [97]) none readPage2
          { ConnectionArgs.mk (C := Nat) (I := Nat)
              (some ⟨[120]⟩) none none none none none with
            before := some nc, after := some nc } = Except.ok conn2) ∧
    (∀ nc, endCursorResolve (V := Nat) (C := Nat) (P := Nat)
        ⟨⟨[97]⟩, some ⟨[120]⟩, .trueCond, ⟨[⟨5, 7⟩], true, false⟩⟩ = Except.ok nc →
      nc.paginatorName = (Paginator.mk [97]).name ∧
      nc.orderingName = (ConnectionArgs.mk (C := Nat) (I := Nat)
        (some ⟨[120]⟩) none none none none none).orderBy.map (fun o => o.name) ∧
      ∀ readPage2 : ReadPageArgs Nat Nat → Page Nat Nat,
        ∃ conn2, connectionResolve (Paginator.mk [97]) none readPage2
          { ConnectionArgs.mk (C := Nat) (I := Nat)
              (some ⟨[120]⟩) none none none none none with
            before := some nc, after := some nc } = Except.ok conn2) :=
  minted_cursors_replay (Paginator.mk [97]) none
    (fun _ => ⟨[⟨5, 7⟩], true, false⟩)
    (ConnectionArgs.mk (some ⟨[120]⟩) none none none none none)
    ⟨⟨[97]⟩, some ⟨[120]⟩, .trueCond, ⟨[⟨5, 7⟩], true, false⟩⟩ rfl


/-- Every base64 alphabet code point decodes back to its sextet. -/
theorem b64Val_b64Cp : ∀ n, n < 64 → b64Val (b64Cp n) = some n := by decide

/-- The base64 alphabet never produces the padding character 61. -/
theorem b64Cp_ne_pad : ∀ n, n < 64 → b64Cp n ≠ 61 := by decide

/-- Base64 decoding inverts base64 encoding on byte sequences. -/
theorem base64_roundtrip : ∀ bs : List Nat, (∀ b ∈ bs, b < 256) →
    base64Decode (base64Encode bs) = some bs
  | [], _ => rfl
  | [b1], hb => by
    have h1 : b1 < 256 := hb b1 (by simp)
    have e1 := b64Val_b64Cp (b1 / 4) (by omega)
    have e2 := b64Val_b64Cp (b1 % 4 * 16) (by omega)
    have hm : b1 % 4 * 16 % 16 = 0 := by omega
    simp [base64Encode, base64Decode, e1, e2, hm]
    all_goals omega
  | [b1, b2], hb => by
    have h1 : b1 < 256 := hb b1 (by simp)
    have h2 : b2 < 256 := hb b2 (by simp)
    have e1 := b64Val_b64Cp (b1 / 4) (by omega)
    have e2 := b64Val_b64Cp (b1 % 4 * 16 + b2 / 16) (by omega)
    have e3 := b64Val_b64Cp (b2 % 16 * 4) (by omega)
    have hm : b2 % 16 * 4 % 4 = 0 := by omega
    have n3 := b64Cp_ne_pad (b2 % 16 * 4) (by omega)
    simp [base64Encode, base64Decode, e1, e2, e3, hm, n3]
    all_goals omega
  | b1 :: b2 :: b3 :: rest, hb => by
    have h1 : b1 < 256 := hb b1 (by simp)
    have h2 : b2 < 256 := hb b2 (by simp)
    have h3 : b3 < 256 := hb b3 (by simp)
    have e1 := b64Val_b64Cp (b1 / 4) (by omega)
    have e2 := b64Val_b64Cp (b1 % 4 * 16 + b2 / 16) (by omega)
    have e3 := b64Val_b64Cp (b2 % 16 * 4 + b3 / 64) (by omega)
    have e4 := b64Val_b64Cp (b3 % 64) (by omega)
    have n3 := b64Cp_ne_pad (b2 % 16 * 4 + b3 / 64) (by omega)
    have n4 := b64Cp_ne_pad (b3 % 64) (by omega)
    have ih := base64_roundtrip rest (fun b h => hb b (by simp [h]))
    simp [base64Encode, base64Decode, e1, e2, e3, e4, n3, n4, ih]
    all_goals omega

/-- UTF-8 encoded bytes are bytes: all below 256 (for scalar values). -/
theorem utf8Encode_lt : ∀ cps : Cps, (∀ c ∈ cps, validScalarCp c = true) →
    ∀ b ∈ utf8Encode cps, b < 256
  | [], _ => by simp [utf8Encode]
  | c :: rest, hv => by
    have hc : validScalarCp c = true := hv c (by simp)
    have hc2 : c < 1114112 := by
      simp [validScalarCp] at hc
      omega
    have ih := utf8Encode_lt rest (fun x h => hv x (by simp [h]))
    intro b hbm
    simp only [utf8Encode, List.mem_append] at hbm
    rcases hbm with hbm | hbm
    · unfold utf8EncodeCp at hbm
      split_ifs at hbm <;> simp at hbm <;> omega
    · exact ih b hbm

/-- One-step evaluation of `utf8Decode` on an ASCII byte. -/
theorem utf8Decode_one (b0 : Nat) (bs : List Nat) (h : b0 < 128) :
    utf8Decode (b0 :: bs) = (utf8Decode bs).map (fun cs => b0 :: cs) := by
  rw [utf8Decode]
  rw [if_pos h]

/-- One-step evaluation of `utf8Decode` on a two-byte sequence. -/
theorem utf8Decode_two (b0 b1 : Nat) (bs : List Nat) (h0 : 192 ≤ b0) (h1 : b0 < 224)
    (hc : isCont b1 = true) :
    utf8Decode (b0 :: b1 :: bs) =
      (utf8Decode bs).map (fun cs => ((b0 - 192) * 64 + (b1 - 128)) :: cs) := by
  rw [utf8Decode]
  rw [if_neg (by omega), if_neg (by omega), if_pos h1, utf8Tail2, if_pos hc]

/-- One-step evaluation of `utf8Decode` on a three-byte sequence. -/
theorem utf8Decode_three (b0 b1 b2 : Nat) (bs : List Nat) (h0 : 224 ≤ b0) (h1 : b0 < 240)
    (hc : (isCont b1 && isCont b2) = true) :
    utf8Decode (b0 :: b1 :: b2 :: bs) =
      (utf8Decode bs).map
        (fun cs => ((b0 - 224) * 4096 + (b1 - 128) * 64 + (b2 - 128)) :: cs) := by
  rw [utf8Decode]
  rw [if_neg (by omega), if_neg (by omega), if_neg (by omega), if_pos h1, utf8Tail3, if_pos hc]

/-- One-step evaluation of `utf8Decode` on a four-byte sequence. -/
theorem utf8Decode_four (b0 b1 b2 b3 : Nat) (bs : List Nat) (h0 : 240 ≤ b0) (h1 : b0 < 248)
    (hc : (isCont b1 && isCont b2 && isCont b3) = true) :
    utf8Decode (b0 :: b1 :: b2 :: b3 :: bs) =
      (utf8Decode bs).map (fun cs =>
        ((b0 - 240) * 262144 + (b1 - 128) * 4096 + (b2 - 128) * 64 + (b3 - 128)) :: cs) := by
  rw [utf8Decode]
  rw [if_neg (by omega), if_neg (by omega), if_neg (by omega), if_neg (by omega),
    if_pos h1, utf8Tail4, if_pos hc]

/-- UTF-8 decoding inverts UTF-8 encoding on scalar-value sequences. -/
theorem utf8_roundtrip : ∀ cps : Cps, (∀ c ∈ cps, validScalarCp c = true) →
    utf8Decode (utf8Encode cps) = some cps
  | [], _ => by
    rw [show utf8Encode [] = [] from rfl]
    rw [utf8Decode]
  | c :: rest, hv => by
    have hc : validScalarCp c = true := hv c (by simp)
    have hc2 : c < 1114112 := by
      simp [validScalarCp] at hc
      omega
    have ih := utf8_roundtrip rest (fun x h => hv x (by simp [h]))
    by_cases h1 : c < 128
    · have he : utf8Encode (c :: rest) = c :: utf8Encode rest := by
        rw [utf8Encode]
        simp [utf8EncodeCp, h1]
      rw [he, utf8Decode_one c _ h1, ih]
      rfl
    · by_cases h2 : c < 2048
      · have he : utf8Encode (c :: rest) =
            (192 + c / 64) :: (128 + c % 64) :: utf8Encode rest := by
          rw [utf8Encode]
          simp [utf8EncodeCp, h1, h2]
        rw [he, utf8Decode_two _ _ _ (by omega) (by omega)
          (by simp only [isCont]; simp; omega), ih]
        simp
        omega
      · by_cases h3 : c < 65536
        · have he : utf8Encode (c :: rest) =
              (224 + c / 4096) :: (128 + c / 64 % 64) :: (128 + c % 64) :: utf8Encode rest := by
            rw [utf8Encode]
            simp [utf8EncodeCp, h1, h2, h3]
          rw [he, utf8Decode_three _ _ _ _ (by omega) (by omega)
            (by simp only [isCont]; simp; omega), ih]
          simp
          omega
        · have he : utf8Encode (c :: rest) =
              (240 + c / 262144) :: (128 + c / 4096 % 64) :: (128 + c / 64 % 64) ::
                (128 + c % 64) :: utf8Encode rest := by
            rw [utf8Encode]
            simp [utf8EncodeCp, h1, h2, h3]
          rw [he, utf8Decode_four _ _ _ _ _ (by omega) (by omega)
            (by simp only [isCont]; simp; omega), ih]
          simp
          omega


/-- The digits of a natural number are digit code points. -/
theorem natDigitsCp_digits : ∀ m, ∀ d ∈ natDigitsCp m, 48 ≤ d ∧ d ≤ 57 := by
  intro m
  induction m using Nat.strong_induction_on with
  | _ m ih =>
    rw [natDigitsCp]
    by_cases h : m < 10
    · rw [if_pos h]
      intro d hd
      simp at hd
      omega
    · rw [if_neg h]
      intro d hd
      rcases List.mem_append.mp hd with hd | hd
      · exact ih (m / 10) (by omega) d hd
      · simp at hd
        omega

/-- The digit run of a natural number is non-empty and starts with a
digit. -/
theorem natDigitsCp_cons : ∀ m, ∃ d t, natDigitsCp m = d :: t ∧ 48 ≤ d ∧ d ≤ 57 := by
  intro m
  induction m using Nat.strong_induction_on with
  | _ m ih =>
    rw [natDigitsCp]
    by_cases h : m < 10
    · rw [if_pos h]
      exact ⟨48 + m, [], rfl, by omega, by omega⟩
    · rw [if_neg h]
      obtain ⟨d, t, he, h1, h2⟩ := ih (m / 10) (by omega)
      exact ⟨d, t ++ [48 + m % 10], by rw [he]; rfl, h1, h2⟩

/-- `digitsVal` over an appended run. -/
theorem digitsVal_append : ∀ xs ys : Cps, ∀ acc,
    digitsVal (xs ++ ys) acc = digitsVal ys (digitsVal xs acc)
  | [], _, _ => rfl
  | x :: xs, ys, acc => by
    rw [List.cons_append, digitsVal, digitsVal]
    exact digitsVal_append xs ys _

/-- Reading back the digits of `m` appends `m` to the accumulator. -/
theorem digitsVal_natDigits : ∀ m acc,
    digitsVal (natDigitsCp m) acc = acc * 10 ^ (natDigitsCp m).length + m := by
  intro m
  induction m using Nat.strong_induction_on with
  | _ m ih =>
    intro acc
    rw [natDigitsCp]
    by_cases h : m < 10
    · rw [if_pos h]
      simp [digitsVal]
    · rw [if_neg h]
      rw [digitsVal_append, ih (m / 10) (by omega) acc]
      have hd : m / 10 * 10 + m % 10 = m := by omega
      have hlen : (natDigitsCp (m / 10) ++ [48 + m % 10]).length =
          (natDigitsCp (m / 10)).length + 1 := by simp
      rw [hlen, digitsVal, digitsVal, pow_succ]
      have h48 : 48 + m % 10 - 48 = m % 10 := by omega
      rw [h48]
      calc (acc * 10 ^ (natDigitsCp (m / 10)).length + m / 10) * 10 + m % 10
          = acc * (10 ^ (natDigitsCp (m / 10)).length * 10) + (m / 10 * 10 + m % 10) := by ring
        _ = acc * (10 ^ (natDigitsCp (m / 10)).length * 10) + m := by rw [hd]

/-- `digitsToNat` inverts `natDigitsCp`. -/
theorem digitsToNat_natDigits (m : Nat) : digitsToNat (natDigitsCp m) = m := by
  rw [digitsToNat, digitsVal_natDigits]
  simp

/-- `takeDigits` splits a digit run off exactly at a non-digit boundary. -/
theorem takeDigits_append : ∀ ds rest : Cps, (∀ d ∈ ds, isDigitCp d = true) →
    (∀ d, rest.head? = some d → isDigitCp d = false) →
    takeDigits (ds ++ rest) = (ds, rest)
  | [], rest, _, hb => by
    cases rest with
    | nil => rfl
    | cons r t =>
      rw [List.nil_append, takeDigits]
      rw [hb r rfl]
      simp
  | d :: ds, rest, hd, hb => by
    rw [List.cons_append, takeDigits]
    rw [hd d (by simp)]
    simp only [if_true]
    rw [takeDigits_append ds rest (fun x h => hd x (by simp [h])) hb]

/-- Every hexadecimal digit code point evaluates back to its value. -/
theorem hexVal_hexDigit : ∀ n, n < 16 → hexVal (hexDigitCp n) = some n := by decide

/-- `parseStrBody` undoes `escapeCps`, consuming the closing quote. -/
theorem parseStrBody_escape : ∀ s rest : Cps,
    parseStrBody (escapeCps s ++ 34 :: rest) = some (s, rest)
  | [], rest => by
    rw [show escapeCps [] = [] from rfl, List.nil_append, parseStrBody]
    rw [if_pos rfl]
  | c :: s, rest => by
    have ih := parseStrBody_escape s rest
    rw [show escapeCps (c :: s) = escapeCp c ++ escapeCps s from rfl, List.append_assoc]
    unfold escapeCp
    split_ifs with h1 h2 h3 h4 h5 h6 h7 h8
    · subst h1
      simp [parseStrBody, parseStrEsc, ih]
    · subst h2
      simp [parseStrBody, parseStrEsc, ih]
    · subst h3
      simp [parseStrBody, parseStrEsc, ih]
    · subst h4
      simp [parseStrBody, parseStrEsc, ih]
    · subst h5
      simp [parseStrBody, parseStrEsc, ih]
    · subst h6
      simp [parseStrBody, parseStrEsc, ih]
    · subst h7
      simp [parseStrBody, parseStrEsc, ih]
    · have e1 := hexVal_hexDigit (c / 16) (by omega)
      have e2 := hexVal_hexDigit (c % 16) (by omega)
      have e0 : hexVal 48 = some 0 := rfl
      simp [parseStrBody, parseStrEsc, parseStrHex, e0, e1, e2, ih]
      omega
    · rw [List.cons_append, parseStrBody]
      rw [if_neg h1, if_neg h2]
      rw [List.nil_append, ih]
      rfl


/-- `parseV` on the text of `null`. -/
theorem parseV_null (fuel : Nat) (rest : Cps) :
    parseV (fuel + 1) ([110, 117, 108, 108] ++ rest) = some (.jnull, rest) := by
  simp only [List.cons_append, List.nil_append]
  rw [parseV]
  simp [expectCps]

/-- `parseV` on the text of `true`. -/
theorem parseV_true (fuel : Nat) (rest : Cps) :
    parseV (fuel + 1) ([116, 114, 117, 101] ++ rest) = some (.jbool true, rest) := by
  simp only [List.cons_append, List.nil_append]
  rw [parseV]
  simp [expectCps]

/-- `parseV` on the text of `false`. -/
theorem parseV_false (fuel : Nat) (rest : Cps) :
    parseV (fuel + 1) ([102, 97, 108, 115, 101] ++ rest) = some (.jbool false, rest) := by
  simp only [List.cons_append, List.nil_append]
  rw [parseV]
  simp [expectCps]

/-- `parseV` on a string literal. -/
theorem parseV_str (fuel : Nat) (s rest : Cps) :
    parseV (fuel + 1) (quoteCps s ++ rest) = some (.jstr s, rest) := by
  rw [show quoteCps s ++ rest = 34 :: (escapeCps s ++ 34 :: rest) by
    rw [quoteCps]
    simp]
  rw [parseV]
  simp [parseStrBody_escape]

/-- `parseV` on an integer literal, at a non-digit boundary. -/
theorem parseV_num (fuel : Nat) (n : Int) (rest : Cps)
    (hb : ∀ d, rest.head? = some d → isDigitCp d = false) :
    parseV (fuel + 1) (intCp n ++ rest) = some (.jnum n, rest) := by
  by_cases hn : n < 0
  · rw [intCp, if_pos hn, List.cons_append, parseV]
    have ht := takeDigits_append (natDigitsCp (-n).toNat) rest
      (fun d hd => by
        have := natDigitsCp_digits (-n).toNat d hd
        simp [isDigitCp]
        omega) hb
    simp [parseNeg, ht]
    obtain ⟨d, t, he, h1, h2⟩ := natDigitsCp_cons (-n).toNat
    constructor
    · rw [he]
      simp
    · rw [digitsToNat_natDigits]
      omega
  · rw [intCp, if_neg hn]
    obtain ⟨d, t, he, h1, h2⟩ := natDigitsCp_cons n.toNat
    rw [he, List.cons_append, parseV]
    have hd1 : ¬d = 110 := by omega
    have hd2 : ¬d = 116 := by omega
    have hd3 : ¬d = 102 := by omega
    have hd4 : ¬d = 34 := by omega
    have hd5 : ¬d = 45 := by omega
    have hd6 : isDigitCp d = true := by
      simp [isDigitCp]
      omega
    rw [if_neg hd1, if_neg hd2, if_neg hd3, if_neg hd4, if_neg hd5, if_pos hd6]
    have ht := takeDigits_append (natDigitsCp n.toNat) rest
      (fun x hx => by
        have := natDigitsCp_digits n.toNat x hx
        simp [isDigitCp]
        omega) hb
    rw [← List.cons_append, ← he, parseNum]
    simp [ht]
    constructor
    · rw [he]
      simp
    · rw [digitsToNat_natDigits]
      omega

/-- Every stringified value starts with a value-opening code point — in
particular never with a closing bracket (93), closing brace (125) or
comma (44). -/
theorem stringifyV_head : ∀ v : JVal, ∃ c t, stringifyV v = c :: t ∧
    (c = 110 ∨ c = 116 ∨ c = 102 ∨ c = 45 ∨ (48 ≤ c ∧ c ≤ 57) ∨ c = 34 ∨ c = 91 ∨ c = 123)
  | .jnull => ⟨110, _, rfl, by omega⟩
  | .jbool true => ⟨116, _, rfl, by omega⟩
  | .jbool false => ⟨102, _, rfl, by omega⟩
  | .jstr s => ⟨34, _, rfl, by omega⟩
  | .jarr a => ⟨91, _, rfl, by omega⟩
  | .jobj o => ⟨123, _, rfl, by omega⟩
  | .jnum n => by
    by_cases hn : n < 0
    · exact ⟨45, _, by rw [stringifyV, intCp, if_pos hn], by omega⟩
    · obtain ⟨d, t, he, h1, h2⟩ := natDigitsCp_cons n.toNat
      exact ⟨d, t, by rw [stringifyV, intCp, if_neg hn, he], by omega⟩


/-- A cons list whose head is a non-digit is a digit boundary. -/
theorem head_boundary (c : Nat) (h : isDigitCp c = false) (t : Cps) :
    ∀ d, (c :: t : Cps).head? = some d → isDigitCp d = false := by
  intro d hd
  simp at hd
  rw [← hd]
  exact h

/-- Every value needs at least one unit of fuel. -/
theorem needV_pos : ∀ v : JVal, 1 ≤ needV v := by
  intro v
  cases v with
  | jarr a => cases a <;> simp [needV]
  | jobj o => cases o <;> simp [needV]
  | jnull => simp [needV]
  | jbool b => simp [needV]
  | jnum n => simp [needV]
  | jstr s => simp [needV]

/-- A stringified non-empty array element list starts with a
value-opening code point. -/
theorem stringifyA_head : ∀ (v : JVal) (tl : JArr), ∃ c t,
    stringifyA (.acons v tl) = c :: t ∧
    (c = 110 ∨ c = 116 ∨ c = 102 ∨ c = 45 ∨ (48 ≤ c ∧ c ≤ 57) ∨ c = 34 ∨ c = 91 ∨ c = 123) := by
  intro v tl
  obtain ⟨c, t, he, hc⟩ := stringifyV_head v
  cases tl with
  | anil => exact ⟨c, t, by rw [stringifyA, he], hc⟩
  | acons w tl2 =>
    exact ⟨c, t ++ 44 :: stringifyA (.acons w tl2), by rw [stringifyA, he]; rfl, hc⟩

/-- A stringified non-empty object field list starts with the quote of
its first key. -/
theorem stringifyO_head : ∀ (k : Cps) (v : JVal) (tl : JObj), ∃ t,
    stringifyO (.ocons k v tl) = 34 :: t := by
  intro k v tl
  cases tl with
  | onil => exact ⟨escapeCps k ++ [34] ++ 58 :: stringifyV v, by rw [stringifyO, quoteCps]; simp⟩
  | ocons k2 v2 tl2 =>
    exact ⟨escapeCps k ++ [34] ++ 58 :: stringifyV v ++ 44 :: stringifyO (.ocons k2 v2 tl2),
      by rw [stringifyO, quoteCps]; simp⟩

/-- `parseV` dispatches an opening bracket to `parseArrTail`. -/
theorem parseV_openBracket (fuel : Nat) (s : Cps) :
    parseV (fuel + 1) (91 :: s) = parseArrTail fuel s := by
  rw [parseV]
  norm_num [isDigitCp]

/-- `parseV` dispatches an opening brace to `parseObjTail`. -/
theorem parseV_openBrace (fuel : Nat) (s : Cps) :
    parseV (fuel + 1) (123 :: s) = parseObjTail fuel s := by
  rw [parseV]
  norm_num [isDigitCp]

mutual
/-- `parseV` undoes `stringifyV` given at least `needV` fuel, at a
non-digit boundary. -/
theorem parse_stringifyV : ∀ (v : JVal) (fuel : Nat), needV v ≤ fuel →
    ∀ rest : Cps, (∀ d, rest.head? = some d → isDigitCp d = false) →
    parseV fuel (stringifyV v ++ rest) = some (v, rest)
  | v, 0, hf, _, _ => by
    exact absurd hf (by have := needV_pos v; omega)
  | .jnull, fuel + 1, hf, rest, hb => by
    rw [stringifyV]
    exact parseV_null fuel rest
  | .jbool true, fuel + 1, hf, rest, hb => by
    rw [stringifyV]
    exact parseV_true fuel rest
  | .jbool false, fuel + 1, hf, rest, hb => by
    rw [stringifyV]
    exact parseV_false fuel rest
  | .jnum n, fuel + 1, hf, rest, hb => by
    rw [stringifyV]
    exact parseV_num fuel n rest hb
  | .jstr s, fuel + 1, hf, rest, hb => by
    rw [stringifyV]
    exact parseV_str fuel s rest
  | .jarr .anil, fuel + 1, hf, rest, hb => by
    rw [stringifyV, stringifyA]
    simp only [List.nil_append, List.cons_append]
    rw [parseV_openBracket, parseArrTail]
    rw [if_pos rfl]
  | .jarr (.acons v tl), fuel + 1, hf, rest, hb => by
    have hf2 : needA (.acons v tl) ≤ fuel := by
      simp [needV] at hf
      omega
    obtain ⟨c, t, he, hc⟩ := stringifyA_head v tl
    rw [stringifyV]
    simp only [List.cons_append, List.append_assoc, List.nil_append]
    rw [parseV_openBracket]
    rw [he, List.cons_append, parseArrTail, if_neg (by omega)]
    rw [← List.cons_append, ← he]
    rw [parse_stringifyA v tl fuel hf2 rest]
    rfl
  | .jobj .onil, fuel + 1, hf, rest, hb => by
    rw [stringifyV, stringifyO]
    simp only [List.nil_append, List.cons_append]
    rw [parseV_openBrace, parseObjTail]
    rw [if_pos rfl]
  | .jobj (.ocons k v tl), fuel + 1, hf, rest, hb => by
    have hf2 : needO (.ocons k v tl) ≤ fuel := by
      simp [needV] at hf
      omega
    obtain ⟨t, he⟩ := stringifyO_head k v tl
    rw [stringifyV]
    simp only [List.cons_append, List.append_assoc, List.nil_append]
    rw [parseV_openBrace]
    rw [he, List.cons_append, parseObjTail, if_neg (by decide)]
    rw [← List.cons_append, ← he]
    rw [parse_stringifyO k v tl fuel hf2 rest]
    rfl
termination_by v _ _ _ _ => sizeOf v

/-- `parseItems` undoes `stringifyA` on a non-empty element list,
consuming the closing bracket. -/
theorem parse_stringifyA : ∀ (v : JVal) (tl : JArr) (fuel : Nat),
    needA (.acons v tl) ≤ fuel → ∀ rest : Cps,
    parseItems fuel (stringifyA (.acons v tl) ++ 93 :: rest) = some (.acons v tl, rest)
  | v, tl, 0, hf, _ => by
    exact absurd hf (by simp [needA])
  | v, .anil, fuel + 1, hf, rest => by
    have hfv : needV v ≤ fuel := by
      simp [needA] at hf
      omega
    rw [stringifyA, parseItems]
    rw [parse_stringifyV v fuel hfv (93 :: rest) (head_boundary 93 (by decide) rest)]
    dsimp only
    rw [parseItemsSep, if_neg (by decide), if_pos rfl]
  | v, .acons w tl2, fuel + 1, hf, rest => by
    have hfv : needV v ≤ fuel := by
      simp [needA] at hf
      omega
    have hfa : needA (.acons w tl2) ≤ fuel := by
      simp [needA] at hf ⊢
      omega
    rw [stringifyA, parseItems]
    simp only [List.append_assoc, List.cons_append]
    rw [parse_stringifyV v fuel hfv _ (head_boundary 44 (by decide) _)]
    dsimp only
    rw [parseItemsSep, if_pos rfl]
    rw [parse_stringifyA w tl2 fuel hfa rest]
    rfl
termination_by v tl _ _ _ => sizeOf v + sizeOf tl + 1

/-- `parseFields` undoes `stringifyO` on a non-empty field list,
consuming the closing brace. -/
theorem parse_stringifyO : ∀ (k : Cps) (v : JVal) (tl : JObj) (fuel : Nat),
    needO (.ocons k v tl) ≤ fuel → ∀ rest : Cps,
    parseFields fuel (stringifyO (.ocons k v tl) ++ 125 :: rest) = some (.ocons k v tl, rest)
  | k, v, tl, 0, hf, _ => by
    exact absurd hf (by simp [needO])
  | k, v, .onil, fuel + 1, hf, rest => by
    have hfv : needV v ≤ fuel := by
      simp [needO] at hf
      omega
    rw [stringifyO, parseFields]
    rw [show (quoteCps k ++ 58 :: stringifyV v) ++ 125 :: rest =
        34 :: (escapeCps k ++ 34 :: (58 :: (stringifyV v ++ 125 :: rest))) from by
      rw [quoteCps]
      simp]
    rw [parseFieldsKey, if_pos rfl]
    rw [parseStrBody_escape]
    dsimp only
    rw [parseFieldsColon, if_pos rfl]
    rw [parse_stringifyV v fuel hfv _ (head_boundary 125 (by decide) _)]
    dsimp only
    rw [parseFieldsSep, if_neg (by decide), if_pos rfl]
  | k, v, .ocons k2 v2 tl2, fuel + 1, hf, rest => by
    have hfv : needV v ≤ fuel := by
      simp [needO] at hf
      omega
    have hfo : needO (.ocons k2 v2 tl2) ≤ fuel := by
      simp [needO] at hf ⊢
      omega
    rw [stringifyO, parseFields]
    rw [show (quoteCps k ++ 58 :: stringifyV v ++ 44 :: stringifyO (.ocons k2 v2 tl2)) ++ 125 :: rest =
        34 :: (escapeCps k ++ 34 :: (58 :: (stringifyV v ++ 44 :: (stringifyO (.ocons k2 v2 tl2) ++ 125 :: rest)))) from by
      rw [quoteCps]
      simp]
    rw [parseFieldsKey, if_pos rfl]
    rw [parseStrBody_escape]
    dsimp only
    rw [parseFieldsColon, if_pos rfl]
    rw [parse_stringifyV v fuel hfv _ (head_boundary 44 (by decide) _)]
    dsimp only
    rw [parseFieldsSep, if_pos rfl]
    rw [parse_stringifyO k2 v2 tl2 fuel hfo rest]
    rfl
termination_by _ v tl _ _ _ => sizeOf v + sizeOf tl + 1
end


/-- Every stringified value is non-empty. -/
theorem stringifyV_len_pos : ∀ v : JVal, 1 ≤ (stringifyV v).length := by
  intro v
  obtain ⟨c, t, he, _⟩ := stringifyV_head v
  rw [he]
  simp

mutual
/-- The fuel needed by a value is bounded by its text length. -/
theorem needV_le_len : ∀ v : JVal, needV v ≤ (stringifyV v).length
  | .jnull => by simp [needV, stringifyV]
  | .jbool true => by simp [needV, stringifyV]
  | .jbool false => by simp [needV, stringifyV]
  | .jnum n => by
    have := stringifyV_len_pos (.jnum n)
    simp [needV]
    omega
  | .jstr s => by
    have := stringifyV_len_pos (.jstr s)
    simp [needV]
    omega
  | .jarr .anil => by
    simp [needV, stringifyV]
  | .jarr (.acons v tl) => by
    have ha := needA_le_len v tl
    rw [needV, stringifyV]
    simp only [List.length_cons, List.length_append]
    simp
    omega
  | .jobj .onil => by
    simp [needV, stringifyV]
  | .jobj (.ocons k v tl) => by
    have ho := needO_le_len k v tl
    rw [needV, stringifyV]
    simp only [List.length_cons, List.length_append]
    simp
    omega
termination_by v => sizeOf v

/-- The fuel needed by a non-empty element list is bounded by its text
length plus one. -/
theorem needA_le_len : ∀ (v : JVal) (tl : JArr),
    needA (.acons v tl) ≤ (stringifyA (.acons v tl)).length + 1
  | v, .anil => by
    have hv := needV_le_len v
    rw [needA, stringifyA]
    simp [needA]
    omega
  | v, .acons w tl2 => by
    have hv := needV_le_len v
    have ha := needA_le_len w tl2
    have hp := stringifyV_len_pos v
    rw [needA, stringifyA]
    simp only [List.length_append, List.length_cons]
    omega
termination_by v tl => sizeOf v + sizeOf tl + 1

/-- The fuel needed by a non-empty field list is bounded by its text
length plus one. -/
theorem needO_le_len : ∀ (k : Cps) (v : JVal) (tl : JObj),
    needO (.ocons k v tl) ≤ (stringifyO (.ocons k v tl)).length + 1
  | k, v, .onil => by
    have hv := needV_le_len v
    rw [needO, stringifyO]
    simp [needO]
    omega
  | k, v, .ocons k2 v2 tl2 => by
    have hv := needV_le_len v
    have ho := needO_le_len k2 v2 tl2
    have hp := stringifyV_len_pos v
    rw [needO, stringifyO]
    simp only [List.length_append, List.length_cons]
    omega
termination_by _ v tl => sizeOf v + sizeOf tl + 1
end

/-- `jsonParse` inverts `jsonStringify`. -/
theorem jsonParse_stringify (v : JVal) : jsonParse (jsonStringify v) = some v := by
  have hlen := needV_le_len v
  have hp := parse_stringifyV v ((stringifyV v).length + 1) (by omega) []
    (by intro d hd; simp at hd)
  rw [List.append_nil] at hp
  rw [jsonStringify, jsonParse, hp]


/-- Every ASCII code point is a Unicode scalar value. -/
theorem ascii_valid : ∀ x, x < 128 → validScalarCp x = true := by decide

/-- Hex digit code points are ASCII. -/
theorem hexDigitCp_lt : ∀ m, m < 16 → hexDigitCp m < 128 := by decide

/-- Escaping emits ASCII code points or the code point itself. -/
theorem escapeCp_bound : ∀ c x, x ∈ escapeCp c → x < 128 ∨ x = c := by
  intro c x hx
  unfold escapeCp at hx
  split_ifs at hx with h1 h2 h3 h4 h5 h6 h7 h8
  all_goals simp at hx
  all_goals try omega
  have hb1 : hexDigitCp (c / 16) < 128 := hexDigitCp_lt _ (by omega)
  have hb2 : hexDigitCp (c % 16) < 128 := hexDigitCp_lt _ (by omega)
  omega

/-- Escaping one valid code point yields valid code points. -/
theorem escapeCp_valid (c : Nat) (h : validScalarCp c = true) :
    ∀ x ∈ escapeCp c, validScalarCp x = true := by
  intro x hx
  rcases escapeCp_bound c x hx with hb | hb
  · exact ascii_valid x hb
  · rw [hb]
    exact h

/-- Escaping a valid string yields valid code points. -/
theorem escapeCps_valid : ∀ s : Cps, (∀ c ∈ s, validScalarCp c = true) →
    ∀ x ∈ escapeCps s, validScalarCp x = true
  | [], _ => by simp [escapeCps]
  | c :: s, h => by
    intro x hx
    rw [escapeCps] at hx
    rcases List.mem_append.mp hx with hx | hx
    · exact escapeCp_valid c (h c (by simp)) x hx
    · exact escapeCps_valid s (fun y hy => h y (by simp [hy])) x hx

/-- A quoted valid string consists of valid code points. -/
theorem quoteCps_valid (s : Cps) (h : ∀ c ∈ s, validScalarCp c = true) :
    ∀ x ∈ quoteCps s, validScalarCp x = true := by
  intro x hx
  rw [quoteCps] at hx
  rcases List.mem_cons.mp hx with hx | hx
  · rw [hx]
    decide
  · rcases List.mem_append.mp hx with hx | hx
    · exact escapeCps_valid s h x hx
    · simp at hx
      rw [hx]
      decide

/-- The text of an integer consists of valid code points. -/
theorem intCp_valid (n : Int) : ∀ x ∈ intCp n, validScalarCp x = true := by
  intro x hx
  rw [intCp] at hx
  split_ifs at hx
  · rcases List.mem_cons.mp hx with hx | hx
    · rw [hx]
      decide
    · have := natDigitsCp_digits (-n).toNat x hx
      exact ascii_valid x (by omega)
  · have := natDigitsCp_digits n.toNat x hx
    exact ascii_valid x (by omega)

mutual
/-- The text of a well-formed value consists of valid code points. -/
theorem stringifyV_valid : ∀ v : JVal, wfV v = true →
    ∀ x ∈ stringifyV v, validScalarCp x = true
  | .jnull, _ => by
    intro x hx
    rw [stringifyV] at hx
    simp at hx
    exact ascii_valid x (by omega)
  | .jbool true, _ => by
    intro x hx
    rw [stringifyV] at hx
    simp at hx
    exact ascii_valid x (by omega)
  | .jbool false, _ => by
    intro x hx
    rw [stringifyV] at hx
    simp at hx
    exact ascii_valid x (by omega)
  | .jnum n, _ => by
    intro x hx
    rw [stringifyV] at hx
    exact intCp_valid n x hx
  | .jstr s, h => by
    intro x hx
    rw [stringifyV] at hx
    refine quoteCps_valid s ?_ x hx
    rw [wfV, validCps] at h
    intro c hc
    exact List.all_eq_true.mp h c hc
  | .jarr .anil, _ => by
    intro x hx
    rw [stringifyV, stringifyA] at hx
    simp at hx
    exact ascii_valid x (by omega)
  | .jarr (.acons v tl), h => by
    intro x hx
    rw [stringifyV] at hx
    rw [wfV] at h
    rcases List.mem_cons.mp hx with hx | hx
    · rw [hx]
      decide
    · rcases List.mem_append.mp hx with hx | hx
      · exact stringifyA_valid v tl h x hx
      · simp at hx
        rw [hx]
        decide
  | .jobj .onil, _ => by
    intro x hx
    rw [stringifyV, stringifyO] at hx
    simp at hx
    exact ascii_valid x (by omega)
  | .jobj (.ocons k v tl), h => by
    intro x hx
    rw [stringifyV] at hx
    rw [wfV] at h
    rcases List.mem_cons.mp hx with hx | hx
    · rw [hx]
      decide
    · rcases List.mem_append.mp hx with hx | hx
      · exact stringifyO_valid k v tl h x hx
      · simp at hx
        rw [hx]
        decide
termination_by v _ => sizeOf v

/-- The text of well-formed array elements consists of valid code
points. -/
theorem stringifyA_valid : ∀ (v : JVal) (tl : JArr), wfA (.acons v tl) = true →
    ∀ x ∈ stringifyA (.acons v tl), validScalarCp x = true
  | v, .anil, h => by
    intro x hx
    rw [stringifyA] at hx
    rw [wfA, Bool.and_eq_true] at h
    exact stringifyV_valid v h.1 x hx
  | v, .acons w tl2, h => by
    intro x hx
    rw [stringifyA] at hx
    rw [wfA, Bool.and_eq_true] at h
    rcases List.mem_append.mp hx with hx | hx
    · exact stringifyV_valid v h.1 x hx
    · rcases List.mem_cons.mp hx with hx | hx
      · rw [hx]
        decide
      · exact stringifyA_valid w tl2 h.2 x hx
termination_by v tl _ => sizeOf v + sizeOf tl + 1

/-- The text of well-formed object fields consists of valid code
points. -/
theorem stringifyO_valid : ∀ (k : Cps) (v : JVal) (tl : JObj), wfO (.ocons k v tl) = true →
    ∀ x ∈ stringifyO (.ocons k v tl), validScalarCp x = true
  | k, v, .onil, h => by
    intro x hx
    rw [stringifyO] at hx
    rw [wfO, Bool.and_eq_true, Bool.and_eq_true] at h
    rcases List.mem_append.mp hx with hx | hx
    · refine quoteCps_valid k ?_ x hx
      intro c hc
      have hk := h.1.1
      rw [validCps] at hk
      exact List.all_eq_true.mp hk c hc
    · rcases List.mem_cons.mp hx with hx | hx
      · rw [hx]
        decide
      · exact stringifyV_valid v h.1.2 x hx
  | k, v, .ocons k2 v2 tl2, h => by
    intro x hx
    rw [stringifyO] at hx
    rw [wfO, Bool.and_eq_true, Bool.and_eq_true] at h
    rcases List.mem_append.mp hx with hx | hx
    · rcases List.mem_append.mp hx with hx | hx
      · refine quoteCps_valid k ?_ x hx
        intro c hc
        have hk := h.1.1
        rw [validCps] at hk
        exact List.all_eq_true.mp hk c hc
      · rcases List.mem_cons.mp hx with hx | hx
        · rw [hx]
          decide
        · exact stringifyV_valid v h.1.2 x hx
    · rcases List.mem_cons.mp hx with hx | hx
      · rw [hx]
        decide
      · exact stringifyO_valid k2 v2 tl2 h.2 x hx
termination_by _ v tl _ => sizeOf v + sizeOf tl + 1
end


/-- C1: deserializing the token produced by serializing a well-formed
namespaced cursor triple yields the original triple:
`_deserializeCursor(_serializeCursor(x)) == x` (the decode of a freshly
minted token succeeds, modelled as `some x`). -/
theorem cursor_serialize_roundtrip (nc : NamespacedCursor JVal)
    (h : wfCursor nc = true) :
    deserializeCursor (serializeCursor nc) = some nc := by
  obtain ⟨pn, ord, cur⟩ := nc
  cases ord with
  | none =>
    rw [wfCursor] at h
    simp only [Bool.and_eq_true] at h
    have hwf : wfV (.jarr (.acons (.jstr pn)
        (.acons (joptStr none) (.acons cur .anil)))) = true := by
      simp [wfV, wfA, joptStr]
      exact ⟨h.1.1, h.2⟩
    have hval := stringifyV_valid _ hwf
    rw [serializeCursor, deserializeCursor, jsonStringify]
    dsimp only
    rw [base64_roundtrip _ (utf8Encode_lt _ hval)]
    dsimp only
    rw [utf8_roundtrip _ hval]
    dsimp only
    have hjp : jsonParse (stringifyV (.jarr (.acons (.jstr pn)
        (.acons (joptStr none) (.acons cur .anil))))) =
        some (.jarr (.acons (.jstr pn) (.acons (joptStr none) (.acons cur .anil)))) := by
      rw [← jsonStringify]
      exact jsonParse_stringify _
    rw [hjp]
    simp [joptStr]
  | some os =>
    rw [wfCursor] at h
    simp only [Bool.and_eq_true] at h
    have hwf : wfV (.jarr (.acons (.jstr pn)
        (.acons (joptStr (some os)) (.acons cur .anil)))) = true := by
      simp [wfV, wfA, joptStr]
      exact ⟨h.1.1, h.1.2, h.2⟩
    have hval := stringifyV_valid _ hwf
    rw [serializeCursor, deserializeCursor, jsonStringify]
    dsimp only
    rw [base64_roundtrip _ (utf8Encode_lt _ hval)]
    dsimp only
    rw [utf8_roundtrip _ hval]
    dsimp only
    have hjp : jsonParse (stringifyV (.jarr (.acons (.jstr pn)
        (.acons (joptStr (some os)) (.acons cur .anil))))) =
        some (.jarr (.acons (.jstr pn) (.acons (joptStr (some os)) (.acons cur .anil)))) := by
      rw [← jsonStringify]
      exact jsonParse_stringify _
    rw [hjp]
    simp [joptStr]

/-- C1 witness: a concrete well-formed triple — paginator `a`, ordering
`x`, payload `[-5, "z"]` — round-trips through the token codec. -/
theorem cursor_serialize_roundtrip_witness :
    wfCursor ⟨[97], some [120], .jarr (.acons (.jnum (-5)) (.acons (.jstr [122]) .anil))⟩ = true ∧
    deserializeCursor (serializeCursor
        ⟨[97], some [120], .jarr (.acons (.jnum (-5)) (.acons (.jstr [122]) .anil))⟩) =
      some ⟨[97], some [120], .jarr (.acons (.jnum (-5)) (.acons (.jstr [122]) .anil))⟩ :=
  ⟨by decide, cursor_serialize_roundtrip _ (by decide)⟩

end PostGraphQL
